import Mathlib

/-!  Shallow embedding of the template-driven binary codec (`pack.c`:
`Array#pack` / `String#unpack`) of the repository, together with proofs
settling the specification claims about it.

Conventions of the embedding:
* byte strings are `List Nat` whose elements are byte values (< 256; the
  places where C's `unsigned char` casts force this are mirrored with
  `% 256`);
* machine integers are `Int` with explicit `% 2^w` reductions at the
  points where the C code casts to a fixed-width unsigned type;
* fallible code returns `Except PErr`;
* the one loop of the source that can fail to terminate (the `unpack`
  repeat loop with the consume-all count on a directive that consumes no
  bytes) is given an explicit fuel parameter, as is the base64 decoder's
  group loop (whose fuel `length + 1` is always sufficient since every
  group consumes at least 4 source bytes).
-/

/-- Boxed values crossing the pack/unpack interface.  Floats are carried as
their raw host-order IEEE byte strings (`flt`); no claim inspects float
arithmetic, only byte movement. -/
inductive PValue where
  | int : Int → PValue
  | str : List Nat → PValue
  | flt : List Nat → PValue
  | nil : PValue
deriving DecidableEq

/-- The raise sites of `pack.c`, as structured errors. -/
inductive PErr where
  | malformedUTF8 : PErr                    -- "malformed UTF-8 character"
  | malformedUTF8len : Nat → Int → PErr     -- "... (expected %S bytes, given %S bytes)"
  | redundantUTF8 : PErr                    -- "redundant UTF-8 sequence"
  | utf8PackRange : PErr                    -- "pack(U): value out of range"
  | cannotUnpackNum : Int → PErr            -- "cannot unpack to Fixnum: ..."
  | xOutside : PErr                         -- "x outside of string"
  | modifierAfter : Nat → PErr              -- "'%S' allowed only after types sSiIlLqQ"
  | tooBigTemplate : PErr                   -- "too big template length"
  | typeCannotConvert : PErr                -- "can't convert %S into String" / to_int failure
  | packBug : PErr                          -- "mruby-pack's bug"
deriving DecidableEq

/-- The exception classes of the error taxonomy. -/
inductive ErrClass where
  | argument | range | typeE | runtime
deriving DecidableEq

/-- Which exception class each raise site of `pack.c` uses. -/
def errClass : PErr → ErrClass
  | .malformedUTF8 => .argument
  | .malformedUTF8len _ _ => .argument
  | .redundantUTF8 => .argument
  | .utf8PackRange => .range
  | .cannotUnpackNum _ => .range
  | .xOutside => .argument
  | .modifierAfter _ => .argument
  | .tooBigTemplate => .runtime
  | .typeCannotConvert => .typeE
  | .packBug => .runtime

/-- Modelled from the spec: the native integer width policy parameter of
§4.4 at its default 64-bit setting (`mruby.h` / `mruby/numeric.h` are not
among the sources; `MRB_INT64` builds have `mrb_int = int64_t`, so
`FIXABLE`/`POSFIXABLE` bound values by the signed 64-bit range). -/
def mrbIntMax : Int := 2 ^ 63 - 1

/-- Modelled from the spec: lower bound of the native integer type (§4.4,
default 64-bit). -/
def mrbIntMin : Int := -(2 ^ 63)

/-- `hex2int`: ASCII hex digit to value, non-digits decode as 0. -/
def hex2int (ch : Nat) : Nat :=
  if 48 ≤ ch ∧ ch ≤ 57 then ch - 48
  else if 65 ≤ ch ∧ ch ≤ 70 then 10 + (ch - 65)
  else if 97 ≤ ch ∧ ch ≤ 102 then 10 + (ch - 97)
  else 0

/-- `isspace` on the byte values reachable here (C locale): space and
horizontal tab..carriage return. -/
def isspaceC (c : Nat) : Bool := c = 32 ∨ (9 ≤ c ∧ c ≤ 13)

/-- ASCII decimal digit test (`isdigit`). -/
def isdigitC (c : Nat) : Bool := 48 ≤ c ∧ c ≤ 57

/-- The parsed directive kinds (`PACK_DIR_*`). -/
inductive Dir where
  | char | short | long | quad | utf8 | dbl | flt | str | hex | base64 | nul | invalid
deriving DecidableEq

/-- The element kinds (`PACK_TYPE_*`). -/
inductive Ty where
  | integer | float | string | noneT
deriving DecidableEq

/-- The flag word of a directive (`PACK_FLAG_*`), one Bool per bit.  `le`
is `PACK_FLAG_LITTLEENDIAN`, the resolved byte order. -/
structure Flags where
  sN : Bool := false       -- PACK_FLAG_s
  fA : Bool := false       -- PACK_FLAG_a
  fZ : Bool := false       -- PACK_FLAG_Z
  signed : Bool := false   -- PACK_FLAG_SIGNED
  gt : Bool := false       -- PACK_FLAG_GT
  lt : Bool := false       -- PACK_FLAG_LT
  width : Bool := false    -- PACK_FLAG_WIDTH
  lsb : Bool := false      -- PACK_FLAG_LSB
  count2 : Bool := false   -- PACK_FLAG_COUNT2
  le : Bool := false       -- PACK_FLAG_LITTLEENDIAN
deriving DecidableEq

/-- A directive descriptor as produced by `read_tmpl`. -/
structure DirDesc where
  dir : Dir
  ty : Ty
  size : Int
  count : Int
  flags : Flags
deriving DecidableEq

/-! ## Integer codecs (`pack_c` .. `unpack_q`) -/

/-- `pack_c`: write the low byte of the value (`(char)mrb_fixnum(o)`). -/
def pack_c (o : Int) : List Nat := [(o % 256).toNat]

/-- `unpack_c`: one byte, signed reinterpretation when `PACK_FLAG_SIGNED`. -/
def unpack_c (flags : Flags) (b : Nat) : Int :=
  if flags.signed then (if b % 256 ≥ 128 then (b % 256 : Int) - 256 else (b % 256 : Int))
  else b % 256

/-- `pack_s`: 16-bit value in the resolved byte order (`(uint16_t)` cast
modelled as `% 2^16`). -/
def pack_s (flags : Flags) (o : Int) : List Nat :=
  let n := (o % 65536).toNat
  if flags.le then [n % 256, n / 256] else [n / 256, n % 256]

/-- `unpack_s`: reassemble two bytes, two's-complement at width 16 when
signed. -/
def unpack_s (flags : Flags) (b0 b1 : Nat) : Int :=
  let n : Int := if flags.le then b1 * 256 + b0 else b0 * 256 + b1
  if flags.signed ∧ n ≥ 32768 then n - 65536 else n

/-- `pack_l`: 32-bit value in the resolved byte order (`(uint32_t)` cast
modelled as `% 2^32`; each `(char)(n >> k)` is `n / 2^k % 256`). -/
def pack_l (flags : Flags) (o : Int) : List Nat :=
  let n := (o % 4294967296).toNat
  if flags.le then [n % 256, n / 256 % 256, n / 65536 % 256, n / 16777216 % 256]
  else [n / 16777216 % 256, n / 65536 % 256, n / 256 % 256, n % 256]

/-- `unpack_l`: reassemble four bytes; `(int32_t)` reinterpretation when
signed.  On the modelled `MRB_INT64` build the `FIXABLE` range checks are
compiled out. -/
def unpack_l (flags : Flags) (b0 b1 b2 b3 : Nat) : Int :=
  let ul : Nat := if flags.le then b3 * 16777216 + b2 * 65536 + b1 * 256 + b0
                  else b0 * 16777216 + b1 * 65536 + b2 * 256 + b3
  if flags.signed then (if ul ≥ 2147483648 then (ul : Int) - 4294967296 else (ul : Int))
  else (ul : Int)

/-- `pack_q`: 64-bit value in the resolved byte order. -/
def pack_q (flags : Flags) (o : Int) : List Nat :=
  let n := (o % 18446744073709551616).toNat
  if flags.le then
    [n % 256, n / 256 % 256, n / 65536 % 256, n / 16777216 % 256,
     n / 4294967296 % 256, n / 1099511627776 % 256, n / 281474976710656 % 256,
     n / 72057594037927936 % 256]
  else
    [n / 72057594037927936 % 256, n / 281474976710656 % 256, n / 1099511627776 % 256,
     n / 4294967296 % 256, n / 16777216 % 256, n / 65536 % 256, n / 256 % 256, n % 256]

/-- `unpack_q`: reassemble eight bytes (the `pos`/`step` loop, unrolled);
`(int64_t)` reinterpretation when signed; `FIXABLE`/`POSFIXABLE` checks
against the native integer bounds (64-bit policy). -/
def unpack_q (flags : Flags) (bs : List Nat) : Except PErr Int :=
  let b := fun i => bs.getD i 0
  let ull : Nat :=
    if flags.le then
      b 7 * 72057594037927936 + b 6 * 281474976710656 + b 5 * 1099511627776 +
      b 4 * 4294967296 + b 3 * 16777216 + b 2 * 65536 + b 1 * 256 + b 0
    else
      b 0 * 72057594037927936 + b 1 * 281474976710656 + b 2 * 1099511627776 +
      b 3 * 4294967296 + b 4 * 16777216 + b 5 * 65536 + b 6 * 256 + b 7
  if flags.signed then
    let sll : Int := if ull ≥ 9223372036854775808 then (ull : Int) - 18446744073709551616 else (ull : Int)
    if sll < mrbIntMin ∨ sll > mrbIntMax then .error (.cannotUnpackNum sll)
    else .ok sll
  else
    if (ull : Int) > mrbIntMax then .error (.cannotUnpackNum ull)
    else .ok ull

/-! ## Float codecs.  The value is opaque (raw host-order IEEE bytes); the
byte-swap against the resolved order is the whole codec. -/

/-- Byte-order adaptation of a raw float image: identity when the resolved
order equals the host order, byte reversal otherwise (the
`MRB_ENDIAN_BIG` conditionals of `pack_double` etc.). -/
def orderBytes (hle : Bool) (flags : Flags) (b : List Nat) : List Nat :=
  if flags.le = hle then b else b.reverse

/-- `pack_double`: emit the 8 raw bytes in the resolved order. -/
def pack_double (hle : Bool) (flags : Flags) (b : List Nat) : List Nat :=
  orderBytes hle flags (b.take 8)

/-- `pack_float`: emit the 4 raw bytes in the resolved order. -/
def pack_float (hle : Bool) (flags : Flags) (b : List Nat) : List Nat :=
  orderBytes hle flags (b.take 4)

/-! ## UTF-8 codec -/

/-- `pack_utf8`: minimal 1–4 byte encoding with thresholds 0x80, 0x800,
0x10000, 0x200000; floats and codepoints ≥ 0x200000 raise a range error.
The `(uint32_t)` cast of the fixnum is mirrored with `% 2^32`. -/
def pack_utf8 (o : PValue) : Except PErr (List Nat) :=
  match o with
  | .flt _ => .error .utf8PackRange
  | .int v =>
    let c := (v % 4294967296).toNat
    if c < 128 then .ok [c]
    else if c < 2048 then .ok [192 + c / 64, 128 + c % 64]
    else if c < 65536 then .ok [224 + c / 4096, 128 + c / 64 % 64, 128 + c % 64]
    else if c < 2097152 then
      .ok [240 + c / 262144, 128 + c / 4096 % 64, 128 + c / 64 % 64, 128 + c % 64]
    else .error .utf8PackRange
  | _ => .error .typeCannotConvert

/-- `utf8_limits`: minimum codepoint per encoded length. -/
def utf8_limits (n : Nat) : Nat :=
  [0, 128, 2048, 65536, 2097152, 67108864, 2147483648].getD n 0

/-- Continuation-byte loop of `utf8_to_uv`: each byte must match
`10xxxxxx` (for a byte value `c < 256` the test `(c & 0xc0) == 0x80` is
`c / 64 = 2`), accumulating 6 bits per byte. -/
def utf8Cont : List Nat → Nat → Nat → Except PErr Nat
  | _, 0, uv => .ok uv
  | l, k + 1, uv =>
    let c := l.getD 0 0 % 256
    if c / 64 = 2 then utf8Cont (l.drop 1) k (uv * 64 + c % 64)
    else .error .malformedUTF8

/-- Declared sequence length of a multi-byte leading byte (the chain of
bit tests `!(uv & 0x20)`, `!(uv & 0x10)`, ..., as range tests on a byte
value). -/
def utf8LeadLen (c : Nat) : Nat :=
  if c < 224 then 2 else if c < 240 then 3
  else if c < 248 then 4 else if c < 252 then 5 else 6

/-- Payload bits of a multi-byte leading byte (the masks `uv &= 0x1f`
etc., as subtractions on a byte value in the matching range). -/
def utf8LeadBits (c : Nat) : Nat :=
  if c < 224 then c - 192 else if c < 240 then c - 224
  else if c < 248 then c - 240 else if c < 252 then c - 248 else c - 252

/-- `utf8_to_uv`: classify the leading byte (the bit tests
`!(uv & 0x80)`, `!(uv & 0x40)`, ... are the range tests `< 0x80`,
`< 0xC0`, ... since the byte is `< 256`), check the declared length
against the available bytes, read the continuation bytes and reject
redundant encodings.  Returns the codepoint and the consumed length. -/
def utf8_to_uv (p : List Nat) (lenp : Int) : Except PErr (Nat × Int) :=
  let c := p.getD 0 0 % 256
  if c < 128 then .ok (c, 1)
  else if c < 192 then .error .malformedUTF8
  else if 254 ≤ c then .error .malformedUTF8
  else
    let n := utf8LeadLen c
    if (n : Int) > lenp then .error (.malformedUTF8len n lenp)
    else
      match utf8Cont (p.drop 1) (n - 1) (utf8LeadBits c) with
      | .error e => .error e
      | .ok uv =>
        if uv < utf8_limits (n - 1) then .error .redundantUTF8
        else .ok (uv, n)

/-- `unpack_utf8`: an empty remaining buffer yields no value and reports
one byte consumed; otherwise decode one codepoint. -/
def unpack_utf8 (src : List Nat) (srclen : Int) : Except PErr (List PValue × Int) :=
  if srclen = 0 then .ok ([], 1)
  else
    match utf8_to_uv src srclen with
    | .error e => .error e
    | .ok (uv, n) => .ok ([.int uv], n)

/-! ## String codec (`pack_a` / `unpack_a`: directives A, a, Z) -/

/-- `pack_a`: copy up to `count` bytes (all of them, plus a NUL for "Z",
when `count` is the consume-all `-1`), right-padding shorter sources with
NUL ("a"/"Z") or space ("A"). -/
def pack_a (flags : Flags) (count : Int) (src : List Nat) : List Nat :=
  let slen : Int := src.length
  let pad : Nat := if flags.fA ∨ flags.fZ then 0 else 32
  if count = 0 then []
  else if count = -1 then src ++ (if flags.fZ then [0] else [])
  else if count < slen then src.take count.toNat
  else src ++ List.replicate (count - slen).toNat pad

/-- Position of the first NUL byte (`memchr(sptr, 0, n)`). -/
def memchr0 : List Nat → Option Nat
  | [] => none
  | c :: rest => if c = 0 then some 0 else (memchr0 rest).map (· + 1)

/-- Length after stripping trailing NUL and whitespace bytes (the "A"
trimming loop of `unpack_a`). -/
def trimAlen (l : List Nat) : Nat :=
  (l.reverse.dropWhile (fun c => c = 0 || isspaceC c)).length

/-- `unpack_a`: extract `min(count, remaining)` bytes (all remaining for
consume-all); "Z" truncates at the first NUL (consuming its terminator in
consume-all mode), "A" strips trailing NUL/whitespace.  Returns the
extracted value and the consumed byte count (which is the possibly
negative `slen` the C code returns). -/
def unpack_a (flags : Flags) (count : Int) (src : List Nat) (slen0 : Int) :
    List Nat × Int :=
  let slen : Int := if count ≠ -1 ∧ count < slen0 then count else slen0
  let copylen : Int := slen
  let cz : Int × Int :=
    if 0 ≤ slen ∧ flags.fZ then
      match memchr0 (src.take slen.toNat) with
      | some i => ((i : Int), if count = -1 then (i : Int) + 1 else slen)
      | none => (copylen, slen)
    else if ¬ flags.fA then (trimAlen (src.take copylen.toNat), slen)
    else (copylen, slen)
  let copy : Int := if cz.1 < 0 then 0 else cz.1
  (src.take copy.toNat, cz.2)

/-! ## Hex codec (`pack_h` / `unpack_h`: directives H, h) -/

/-- Nibble-emission loop of `pack_h`: each output byte packs the next two
source characters (zero when the source is exhausted), high nibble first
unless `PACK_FLAG_LSB`. -/
def packHGo (ashift bshift : Nat) : Int → List Nat → List Nat
  | count, src =>
    if h : 0 < count then
      let a := hex2int (src.getD 0 0)
      let b := hex2int (src.getD 1 0)
      (a * 2 ^ ashift + b * 2 ^ bshift) % 256 :: packHGo ashift bshift (count - 2) (src.drop 2)
    else []
  termination_by count _ => count.toNat
  decreasing_by omega

/-- `pack_h`: the count bounds the total nibble count (source truncated to
`count` characters, shortfall zero-filled); consume-all uses the whole
source. -/
def pack_h (flags : Flags) (count : Int) (src : List Nat) : List Nat :=
  let slen : Int := src.length
  let ashift := if flags.lsb then 0 else 4
  let bshift := if flags.lsb then 4 else 0
  let count' := if count = -1 then slen else count
  let src' := if slen > count' then src.take count'.toNat else src
  packHGo ashift bshift count' src'

/-- ASCII hex digit for a nibble (`"0123456789abcdef"[a]`). -/
def hexdig (a : Nat) : Nat := if a < 10 then 48 + a else 87 + a % 16

/-- Nibble-extraction loop of `unpack_h`: one or two hex characters per
source byte while both the source and the count last; returns the emitted
characters and the source bytes consumed. -/
def unpackHGo (ashift bshift : Nat) : Int → List Nat → List Nat × Nat
  | _, [] => ([], 0)
  | count, c :: rest =>
    if count ≤ 0 then ([], 0)
    else
      let a := c / 2 ^ ashift % 16
      let b := c / 2 ^ bshift % 16
      if count = 1 then ([hexdig a], 1)
      else
        let r := unpackHGo ashift bshift (count - 2) rest
        (hexdig a :: hexdig b :: r.1, r.2 + 1)

/-- `unpack_h`: extract nibbles bounded by the count (consume-all defaults
to twice the remaining length). -/
def unpack_h (flags : Flags) (count : Int) (src : List Nat) (slen0 : Int) :
    List Nat × Nat :=
  let ashift := if flags.lsb then 0 else 4
  let bshift := if flags.lsb then 4 else 0
  let count' := if count = -1 then slen0 * 2 else count
  unpackHGo ashift bshift count' src

/-! ## Base64 codec (`pack_m` / `unpack_m`: directive m) -/

/-- The base64 alphabet. -/
def base64chars : List Nat :=
  [65, 66, 67, 68, 69, 70, 71, 72, 73, 74, 75, 76, 77, 78, 79, 80, 81, 82,
   83, 84, 85, 86, 87, 88, 89, 90,
   97, 98, 99, 100, 101, 102, 103, 104, 105, 106, 107, 108, 109, 110, 111,
   112, 113, 114, 115, 116, 117, 118, 119, 120, 121, 122,
   48, 49, 50, 51, 52, 53, 54, 55, 56, 57, 43, 47]

/-- Indexing into the base64 alphabet (always called with a 6-bit index). -/
def b64c (i : Nat) : Nat := base64chars.getD i 65

/-- `base64_dec_tab`: 62/63 for `+`/`/`, 0–61 for alphanumerics, 254
(`PACK_BASE64_PADDING`) for `=`, 255 (`PACK_BASE64_IGNORE`) otherwise. -/
def b64dec (c : Nat) : Nat :=
  if 65 ≤ c ∧ c ≤ 90 then c - 65
  else if 97 ≤ c ∧ c ≤ 122 then c - 97 + 26
  else if 48 ≤ c ∧ c ≤ 57 then c - 48 + 52
  else if c = 43 then 62
  else if c = 47 then 63
  else if c = 61 then 254
  else 255

/-- Line-length normalization of `pack_m`: counts 1, 2 and consume-all
fall back to the default 45; counts ≥ 3 are rounded down to a multiple of
3; count 0 is left untouched (no wrapping). -/
def normCountM (count : Int) : Int :=
  if count ≠ 0 ∧ count < 3 then 45
  else if count ≥ 3 then count - count % 3
  else count

/-- Trailing 1- or 2-byte group of `pack_m`, plus the final newline that
is emitted whenever the (normalized) count is positive (the column is
always positive at this point). -/
def packMTail (count column : Int) (src : List Nat) : List Nat :=
  let cs : List Nat × Int :=
    match src with
    | [b0] =>
      let l := b0 % 256 * 65536
      ([b64c (l / 262144 % 64), b64c (l / 4096 % 64), 61, 61], column + 3)
    | [b0, b1] =>
      let l := b0 % 256 * 65536 + b1 % 256 * 256
      ([b64c (l / 262144 % 64), b64c (l / 4096 % 64), b64c (l / 64 % 64), 61], column + 3)
    | _ => ([], column)
  cs.1 ++ (if cs.2 > 0 ∧ count > 0 then [10] else [])

/-- 3-byte-group loop of `pack_m`: four alphabet characters per group, a
newline when the source-byte column reaches the count (the column then
restarts; the `for` update adds 3 either way). -/
def packMGo (count : Int) : Int → List Nat → List Nat
  | column, b0 :: b1 :: b2 :: rest =>
    let l := b0 % 256 * 65536 + b1 % 256 * 256 + b2 % 256
    [b64c (l / 262144 % 64), b64c (l / 4096 % 64), b64c (l / 64 % 64), b64c (l % 64)] ++
      (if column = count then [10] else []) ++
      packMGo count ((if column = count then 0 else column) + 3) rest
  | column, rest => packMTail count column rest

/-- `pack_m`: base64-encode the source with line wrapping after
`normCountM count` source bytes (no wrapping when that is 0); the empty
source emits nothing. -/
def pack_m (count : Int) (src : List Nat) : List Nat :=
  if src.length = 0 then []
  else packMGo (normCountM count) 3 src

/-- Symbol-skipping inner loop of `unpack_m`: read bytes until one decodes
to a 6-bit symbol or padding (counted), skipping non-table bytes and
ignores; `none` when the source is exhausted. -/
def b64Skip (padding : Nat) : List Nat → Option (Nat × Nat × List Nat)
  | [] => none
  | c :: rest =>
    if 128 ≤ c then b64Skip padding rest
    else
      let v := b64dec c
      if v = 254 then some (0, padding + 1, rest)
      else if v = 255 then b64Skip padding rest
      else some (v, padding, rest)

/-- Group loop of `unpack_m`: while at least 4 bytes remain, accumulate 4
symbols into a 24-bit group and emit 3 bytes, or 2/1 and stop when padding
was seen.  Returns the decoded bytes and the unread suffix.  The fuel
`length + 1` used below is always sufficient: every group consumes at
least 4 source bytes. -/
def unpackMGo : Nat → List Nat → Nat → List Nat → List Nat × List Nat
  | 0, src, _, acc => (acc, src)
  | fuel + 1, src, padding, acc =>
    if src.length ≥ 4 then
      match b64Skip padding src with
      | none => (acc, [])
      | some (c0, p0, r0) =>
        match b64Skip p0 r0 with
        | none => (acc, [])
        | some (c1, p1, r1) =>
          match b64Skip p1 r1 with
          | none => (acc, [])
          | some (c2, p2, r2) =>
            match b64Skip p2 r2 with
            | none => (acc, [])
            | some (c3, p3, r3) =>
              let l := c0 * 262144 + c1 * 4096 + c2 * 64 + c3
              if p3 = 0 then
                unpackMGo fuel r3 p3 (acc ++ [l / 65536 % 256, l / 256 % 256, l % 256])
              else if p3 = 1 then (acc ++ [l / 65536 % 256, l / 256 % 256], r3)
              else (acc ++ [l / 65536 % 256], r3)
    else (acc, src)

/-- `unpack_m`: decode the remaining buffer; the consumed byte count is
the number of source bytes actually read. -/
def unpack_m (src : List Nat) : List Nat × Nat :=
  let r := unpackMGo (src.length + 1) src 0 []
  (r.1, src.length - r.2.length)

/-! ## Null-padding codec (`pack_x` / `unpack_x`: directive x) -/

/-- `pack_x`: `count` zero bytes, nothing for a negative count. -/
def pack_x (count : Int) : List Nat :=
  if count < 0 then [] else List.replicate count.toNat 0

/-- `unpack_x`: skip `count` bytes, or all remaining ones for a negative
count; an argument error when fewer than `count` remain. -/
def unpack_x (slen : Int) (count : Int) : Except PErr Int :=
  if count < 0 then .ok slen
  else if slen < count then .error .xOutside
  else .ok count

/-! ## Template parser (`read_tmpl`).

The C function reads one directive character, resolves aliases, then loops
over the suffix characters `[0-9*_!<>]`, pushing back the first
non-suffix character.  The embedding runs the same character-level loop as
a state machine over the template list: `startDir` is the directive-char
switch, `stepSuffix` one iteration of the suffix loop, and a non-suffix
character finalizes the pending descriptor and starts the next one (the
push-back). -/

/-- Alias resolution for `I`/`i` (the `goto alias` arms).  The build is
modelled with `sizeof(int) == 4`, so `I ↦ L` and `i ↦ l`. -/
def resolveChar (t : Nat) : Nat :=
  if t = 73 then 76 else if t = 105 then 108 else t

/-- The directive-character switch of `read_tmpl`: directive kind, element
kind, fixed size and initial flags; unrecognized characters yield the
invalid (no-op) kind. -/
def dirTable (t : Nat) : Dir × Ty × Int × Flags :=
  match t with
  | 65 => (.str, .string, 0, { width := true, count2 := true })                 -- A
  | 97 => (.str, .string, 0, { width := true, count2 := true, fA := true })     -- a
  | 67 => (.char, .integer, 1, {})                                             -- C
  | 99 => (.char, .integer, 1, { signed := true })                             -- c
  | 68 => (.dbl, .float, 8, { signed := true })                                -- D
  | 100 => (.dbl, .float, 8, { signed := true })                               -- d
  | 70 => (.flt, .float, 4, { signed := true })                                -- F
  | 102 => (.flt, .float, 4, { signed := true })                               -- f
  | 69 => (.dbl, .float, 8, { signed := true, lt := true })                    -- E
  | 101 => (.flt, .float, 4, { signed := true, lt := true })                   -- e
  | 71 => (.dbl, .float, 8, { signed := true, gt := true })                    -- G
  | 103 => (.flt, .float, 4, { signed := true, gt := true })                   -- g
  | 72 => (.hex, .string, 0, { count2 := true })                               -- H
  | 104 => (.hex, .string, 0, { count2 := true, lsb := true })                 -- h
  | 76 => (.long, .integer, 4, {})                                             -- L
  | 108 => (.long, .integer, 4, { signed := true })                            -- l
  | 109 => (.base64, .string, 0, { width := true })                            -- m
  | 78 => (.long, .integer, 4, { gt := true })                                 -- N
  | 110 => (.short, .integer, 2, { gt := true })                               -- n
  | 81 => (.quad, .integer, 8, {})                                             -- Q
  | 113 => (.quad, .integer, 8, { signed := true })                            -- q
  | 83 => (.short, .integer, 2, {})                                            -- S
  | 115 => (.short, .integer, 2, { signed := true })                           -- s
  | 85 => (.utf8, .integer, 0, {})                                             -- U
  | 86 => (.long, .integer, 4, { lt := true })                                 -- V
  | 118 => (.short, .integer, 2, { lt := true })                               -- v
  | 120 => (.nul, .noneT, 0, {})                                               -- x
  | 90 => (.str, .string, 0, { width := true, count2 := true, fZ := true })    -- Z
  | _ => (.invalid, .noneT, 0, {})

/-- The directive currently being parsed: the resolved character `t`,
whether the previous suffix character was a digit (a fresh digit restarts
the count), and the descriptor fields collected so far. -/
structure Pending where
  tch : Nat
  lastDigit : Bool
  dir : Dir
  ty : Ty
  size : Int
  count : Int
  flags : Flags
deriving DecidableEq

/-- Begin parsing a directive character (count defaults to 1). -/
def startDir (c : Nat) : Pending :=
  let t := resolveChar c
  let e := dirTable t
  ⟨t, false, e.1, e.2.1, e.2.2.1, 1, e.2.2.2⟩

/-- The characters accepted by the suffix loop. -/
def isSuffixChar (ch : Nat) : Bool :=
  isdigitC ch || ch = 42 || ch = 95 || ch = 33 || ch = 60 || ch = 62

/-- The directive characters after which a size/endian modifier is legal
(`strchr("sSiIlLqQ", t)`). -/
def modifierOkChars : List Nat := [115, 83, 105, 73, 108, 76, 113, 81]

/-- Apply one modifier character (`_`/`!` request native size, `<`/`>`
force an endianness). -/
def applyMod (f : Flags) (ch : Nat) : Flags :=
  if ch = 95 ∨ ch = 33 then { f with sN := true }
  else if ch = 60 then { f with lt := true }
  else { f with gt := true }

/-- One iteration of the suffix loop of `read_tmpl`: digits accumulate
into the count (a fresh run restarts it; the C overflow guard cannot fire
over `Int`), `*` sets the consume-all sentinel, and a modifier is accepted
only after the characters of `modifierOkChars` — or after a NUL directive
byte, because `strchr("sSiIlLqQ", t)` also matches the string's NUL
terminator when `t = 0` — otherwise an argument error naming the modifier
is raised. -/
def stepSuffix (p : Pending) (ch : Nat) : Except PErr Pending :=
  if isdigitC ch then
    let c' : Int := if p.lastDigit then p.count * 10 + ((ch : Int) - 48) else (ch : Int) - 48
    if c' < 0 then .error .tooBigTemplate
    else .ok { p with count := c', lastDigit := true }
  else if ch = 42 then .ok { p with count := -1, lastDigit := false }
  else
    if p.tch = 0 ∨ p.tch ∈ modifierOkChars then
      .ok { p with flags := applyMod p.flags ch, lastDigit := false }
    else .error (.modifierAfter ch)

/-- Finalize a descriptor: resolve the effective byte order (explicit `<`
wins; otherwise the host order unless `>` was given).  The flag word
reaches this point with `le` still clear, so `|=` under the condition is
exactly setting `le` to the condition. -/
def finalize (hle : Bool) (p : Pending) : DirDesc :=
  let f := p.flags
  ⟨p.dir, p.ty, p.size, p.count, { f with le := f.lt || (!f.gt && hle) }⟩

/-- The character-level parsing loop (see the section comment). -/
def readTmplGo (hle : Bool) (p : Pending) : List Nat → Except PErr (List DirDesc)
  | [] => .ok [finalize hle p]
  | ch :: rest =>
    if isSuffixChar ch then
      match stepSuffix p ch with
      | .error e => .error e
      | .ok p' => readTmplGo hle p' rest
    else
      match readTmplGo hle (startDir ch) rest with
      | .error e => .error e
      | .ok ds => .ok (finalize hle p :: ds)

/-- `read_tmpl`, iterated over the whole template: the list of directive
descriptors, or the first parse error. -/
def read_tmpl (hle : Bool) : List Nat → Except PErr (List DirDesc)
  | [] => .ok []
  | c :: rest => readTmplGo hle (startDir c) rest

/-! ## Pack engine (`mrb_pack_pack`) -/

/-- Modelled from the spec: the numeric-coercion facility and string-type
check of §6 (`mrb_to_int`, `mrb_to_flo`, `mrb_string_p` are not among the
sources).  Integer coercion passes integers (and boxed floats, which
`pack_utf8` then rejects) through and raises a type error otherwise;
float coercion is modelled only for already-boxed floats, since IEEE
conversion of other numerics is outside this embedding; the string check
raises a type error for non-strings. -/
def coerceVal (ty : Ty) (o : PValue) : Except PErr PValue :=
  match ty with
  | .integer =>
    match o with
    | .int v => .ok (.int v)
    | .flt b => .ok (.flt b)
    | _ => .error .typeCannotConvert
  | .float =>
    match o with
    | .flt b => .ok (.flt b)
    | _ => .error .typeCannotConvert
  | .string =>
    match o with
    | .str s => .ok (.str s)
    | _ => .error .typeCannotConvert
  | .noneT => .ok o

/-- `mrb_fixnum` on a coerced integer value (only `.int` values reach the
fixed-width codecs in practice). -/
def asFix : PValue → Int
  | .int v => v
  | _ => 0

/-- Dispatch of the pack codec switch for one (coerced) value. -/
def packCodec (hle : Bool) (d : DirDesc) (o : PValue) (count : Int) :
    Except PErr (List Nat) :=
  match d.dir with
  | .char => .ok (pack_c (asFix o))
  | .short => .ok (pack_s d.flags (asFix o))
  | .long => .ok (pack_l d.flags (asFix o))
  | .quad => .ok (pack_q d.flags (asFix o))
  | .base64 => .ok (pack_m count (match o with | .str s => s | _ => []))
  | .hex => .ok (pack_h d.flags count (match o with | .str s => s | _ => []))
  | .str => .ok (pack_a d.flags count (match o with | .str s => s | _ => []))
  | .dbl => .ok (pack_double hle d.flags (match o with | .flt b => b | _ => []))
  | .flt => .ok (pack_float hle d.flags (match o with | .flt b => b | _ => []))
  | .utf8 => pack_utf8 o
  | _ => .ok []

/-- The per-directive value loop of the pack engine (`for (; aidx < ...)`),
processing the remaining input values: stops when the count reaches zero
(unless `PACK_FLAG_WIDTH`), coerces the next value, runs the codec, and
— only for the string directive kind — always stops after one value.
Returns the number of values consumed and the emitted bytes. -/
def packDirLoop (hle : Bool) (d : DirDesc) : List PValue → Int →
    Except PErr (Nat × List Nat)
  | [], _ => .ok (0, [])
  | o :: rest, count =>
    if count = 0 ∧ ¬ d.flags.width then .ok (0, [])
    else
      match coerceVal d.ty o with
      | .error e => .error e
      | .ok o' =>
        match packCodec hle d o' count with
        | .error e => .error e
        | .ok bs =>
          if d.dir = Dir.str then .ok (1, bs)
          else
            match packDirLoop hle d rest (if count > 0 then count - 1 else count) with
            | .error e => .error e
            | .ok (n, bs') => .ok (n + 1, bs ++ bs')

/-- The directive loop of the pack engine: invalid directives are
skipped, the null-padding directive writes its zero bytes without
consuming values, every other directive runs the value loop.  Returns the
total number of values consumed and the result bytes. -/
def packDirs (hle : Bool) : List DirDesc → List PValue →
    Except PErr (Nat × List Nat)
  | [], _ => .ok (0, [])
  | d :: ds, vals =>
    if d.dir = Dir.invalid then packDirs hle ds vals
    else if d.dir = Dir.nul then
      match packDirs hle ds vals with
      | .error e => .error e
      | .ok (m, bs') => .ok (m, pack_x d.count ++ bs')
    else
      match packDirLoop hle d vals d.count with
      | .error e => .error e
      | .ok (n, bs) =>
        match packDirs hle ds (vals.drop n) with
        | .error e => .error e
        | .ok (m, bs') => .ok (n + m, bs ++ bs')

/-- `mrb_pack_pack`: parse the template and run the pack engine.  Returns
the number of array values consumed and the packed byte string. -/
def pack_pack (hle : Bool) (tmpl : List Nat) (ary : List PValue) :
    Except PErr (Nat × List Nat) :=
  match read_tmpl hle tmpl with
  | .error e => .error e
  | .ok ds => packDirs hle ds ary

/-- The packed bytes of `pack_pack` alone. -/
def packBytes (hle : Bool) (tmpl : List Nat) (ary : List PValue) :
    Except PErr (List Nat) :=
  match pack_pack hle tmpl ary with
  | .error e => .error e
  | .ok r => .ok r.2

/-! ## Unpack engine (`pack_unpack`) -/

/-- Dispatch of the unpack codec switch inside the repeat loop (the
count2 string/hex directives are handled before the loop, as in the C
code; reaching them here is the "mruby-pack's bug" raise).  `rem` is the
remaining buffer, `slen` its length.  Returns pushed values and consumed
bytes. -/
def unpackCodec (hle : Bool) (d : DirDesc) (rem : List Nat) (slen : Int) :
    Except PErr (List PValue × Int) :=
  match d.dir with
  | .char => .ok ([.int (unpack_c d.flags (rem.getD 0 0))], 1)
  | .short => .ok ([.int (unpack_s d.flags (rem.getD 0 0) (rem.getD 1 0))], 2)
  | .long =>
    .ok ([.int (unpack_l d.flags (rem.getD 0 0) (rem.getD 1 0) (rem.getD 2 0) (rem.getD 3 0))], 4)
  | .quad =>
    match unpack_q d.flags (rem.take 8) with
    | .error e => .error e
    | .ok n => .ok ([.int n], 8)
  | .base64 =>
    let r := unpack_m rem
    .ok ([.str r.1], (r.2 : Int))
  | .flt => .ok ([.flt (orderBytes hle d.flags (rem.take 4))], 4)
  | .dbl => .ok ([.flt (orderBytes hle d.flags (rem.take 8))], 8)
  | .utf8 => unpack_utf8 rem slen
  | _ => .error .packBug

/-- The repeat loop of the unpack engine for numeric-kind directives:
while the count lasts, require `size` remaining bytes — appending one
"no value" marker per still-requested repetition and stopping when they
are insufficient — otherwise run the codec and advance the cursor by the
consumed bytes.  `tr` records the cursor position after every codec call;
`fuel` bounds the iterations (the consume-all count on a directive that
consumes no bytes loops forever in the C code). -/
def unpackNumLoop (hle : Bool) (d : DirDesc) (str : List Nat) :
    Nat → Int → Int → List PValue → List Int →
    Option (Except PErr (Int × List PValue × List Int))
  | 0, _, _, _, _ => none
  | fuel + 1, idx, count, res, tr =>
    if count = 0 then some (.ok (idx, res, tr))
    else if (str.length : Int) - idx < d.size then
      some (.ok (idx, res ++ List.replicate count.toNat PValue.nil, tr))
    else
      match unpackCodec hle d (str.drop idx.toNat) ((str.length : Int) - idx) with
      | .error e => some (.error e)
      | .ok (vals, consumed) =>
        unpackNumLoop hle d str fuel (idx + consumed)
          (if count > 0 then count - 1 else count) (res ++ vals) (tr ++ [idx + consumed])

/-- The directive loop of the unpack engine: invalid directives are
skipped, the null-padding directive advances the cursor (its `continue`
bypasses the single-value check, as does the count2 block for string/hex
directives); numeric-kind directives run the repeat loop and, in
single-value mode, end the walk. -/
def unpackDirs (hle : Bool) (fuel : Nat) (str : List Nat) :
    List DirDesc → Int → List PValue → List Int → Bool →
    Option (Except PErr (Int × List PValue × List Int))
  | [], idx, res, tr, _ => some (.ok (idx, res, tr))
  | d :: ds, idx, res, tr, single =>
    if d.dir = Dir.invalid then unpackDirs hle fuel str ds idx res tr single
    else if d.dir = Dir.nul then
      match unpack_x ((str.length : Int) - idx) d.count with
      | .error e => some (.error e)
      | .ok k => unpackDirs hle fuel str ds (idx + k) res (tr ++ [idx + k]) single
    else if d.flags.count2 then
      match d.dir with
      | .hex =>
        let r := unpack_h d.flags d.count (str.drop idx.toNat) ((str.length : Int) - idx)
        unpackDirs hle fuel str ds (idx + r.2) (res ++ [.str r.1]) (tr ++ [idx + (r.2 : Int)]) single
      | .str =>
        let r := unpack_a d.flags d.count (str.drop idx.toNat) ((str.length : Int) - idx)
        unpackDirs hle fuel str ds (idx + r.2) (res ++ [.str r.1]) (tr ++ [idx + r.2]) single
      | _ => unpackDirs hle fuel str ds idx res tr single
    else
      match unpackNumLoop hle d str fuel idx d.count res tr with
      | none => none
      | some (.error e) => some (.error e)
      | some (.ok (idx', res', tr')) =>
        if single then some (.ok (idx', res', tr'))
        else unpackDirs hle fuel str ds idx' res' tr' single

/-- `pack_unpack`: parse the template and run the unpack engine.  Returns
the final cursor, the decoded value sequence and the trace of cursor
positions after each codec call. -/
def pack_unpack (hle : Bool) (fuel : Nat) (str : List Nat) (tmpl : List Nat)
    (single : Bool) : Option (Except PErr (Int × List PValue × List Int)) :=
  match read_tmpl hle tmpl with
  | .error e => some (.error e)
  | .ok ds => unpackDirs hle fuel str ds 0 [] [] single

/-- The decoded value sequence of a full `unpack` call. -/
def unpackVals (hle : Bool) (fuel : Nat) (str : List Nat) (tmpl : List Nat) :
    Option (Except PErr (List PValue)) :=
  match pack_unpack hle fuel str tmpl false with
  | none => none
  | some (.error e) => some (.error e)
  | some (.ok r) => some (.ok r.2.1)

/-- `mrb_pack_unpack1` over parsed descriptors: single-value mode, then
the unconditional `RARRAY_PTR(result)[0]` read, modelled as `head?` (the
`none` result is the out-of-bounds read of an empty sequence). -/
def unpack1Descs (hle : Bool) (fuel : Nat) (str : List Nat) (ds : List DirDesc) :
    Option (Except PErr (Option PValue)) :=
  match unpackDirs hle fuel str ds 0 [] [] true with
  | none => none
  | some (.error e) => some (.error e)
  | some (.ok r) => some (.ok r.2.1.head?)

/-- `mrb_pack_unpack1` from a template string. -/
def unpack1Val (hle : Bool) (fuel : Nat) (str : List Nat) (tmpl : List Nat) :
    Option (Except PErr (Option PValue)) :=
  match read_tmpl hle tmpl with
  | .error e => some (.error e)
  | .ok ds => unpack1Descs hle fuel str ds

/-! ## Derived notions used by the claims -/

/-- The fixed-width numeric directive characters C,c,S,s,n,v,L,l,N,V,Q,q. -/
def numDirChars : List Nat := [67, 99, 83, 115, 110, 118, 76, 108, 78, 86, 81, 113]

/-- Bit width of a fixed-width numeric directive character. -/
def dirWidthBits (c : Nat) : Nat :=
  if c = 67 ∨ c = 99 then 8
  else if c = 83 ∨ c = 115 ∨ c = 110 ∨ c = 118 then 16
  else if c = 76 ∨ c = 108 ∨ c = 78 ∨ c = 86 then 32
  else 64

/-- Whether a numeric directive character is the signed variant (c,s,l,q). -/
def dirSignedChar (c : Nat) : Bool := c = 99 ∨ c = 115 ∨ c = 108 ∨ c = 113

/-- "v is representable at the directive's width and signedness". -/
def numRange (c : Nat) (v : Int) : Prop :=
  if dirSignedChar c then
    -(2 ^ (dirWidthBits c - 1)) ≤ v ∧ v < 2 ^ (dirWidthBits c - 1)
  else 0 ≤ v ∧ v < 2 ^ dirWidthBits c


/-- The fixed byte width the directive table assigns to each directive
kind (0 for the variable-width kinds). -/
def dirSizeOf : Dir → Int
  | .char => 1
  | .short => 2
  | .long => 4
  | .quad => 8
  | .flt => 4
  | .dbl => 8
  | _ => 0

/-- Well-formedness of a parsed descriptor: the size matches the
directive table and the count is an explicit non-negative value or the
consume-all sentinel.  Every descriptor `read_tmpl` emits satisfies it. -/
def descWF (d : DirDesc) : Prop :=
  d.size = dirSizeOf d.dir ∧ -1 ≤ d.count

/-! ## Helper lemmas -/
theorem pack_s_length (f : Flags) (v : Int) : (pack_s f v).length = 2 := by
  cases hl : f.le <;> simp [pack_s, hl]

theorem pack_l_length (f : Flags) (v : Int) : (pack_l f v).length = 4 := by
  cases hl : f.le <;> simp [pack_l, hl]

theorem pack_q_length (f : Flags) (v : Int) : (pack_q f v).length = 8 := by
  cases hl : f.le <;> simp [pack_q, hl]

theorem rt_c (f : Flags) (v : Int)
    (hv : if f.signed then -128 ≤ v ∧ v < 128 else 0 ≤ v ∧ v < 256) :
    unpack_c f ((pack_c v).getD 0 0) = v := by
  cases hs : f.signed <;> rw [hs] at hv <;>
    simp only [Bool.false_eq_true, Bool.true_eq_false, eq_self_iff_true, if_true, if_false] at hv <;>
    simp only [unpack_c, pack_c, hs, Bool.false_eq_true, Bool.true_eq_false, if_false, if_true,
      eq_self_iff_true, false_and, true_and, false_or, or_false, List.getD_cons_succ,
      List.getD_cons_zero] <;>
    (try split_ifs) <;> omega

theorem rt_s (f : Flags) (v : Int)
    (hv : if f.signed then -32768 ≤ v ∧ v < 32768 else 0 ≤ v ∧ v < 65536) :
    unpack_s f ((pack_s f v).getD 0 0) ((pack_s f v).getD 1 0) = v := by
  cases hs : f.signed <;> rw [hs] at hv <;>
    simp only [Bool.false_eq_true, Bool.true_eq_false, eq_self_iff_true, if_true, if_false] at hv <;>
    cases hl : f.le <;>
    simp only [unpack_s, pack_s, hs, hl, Bool.false_eq_true, Bool.true_eq_false, if_false,
      if_true, eq_self_iff_true, false_and, true_and, false_or, or_false, List.getD_cons_succ,
      List.getD_cons_zero] <;>
    (try split_ifs) <;> omega

theorem rt_l (f : Flags) (v : Int)
    (hv : if f.signed then -2147483648 ≤ v ∧ v < 2147483648 else 0 ≤ v ∧ v < 4294967296) :
    unpack_l f ((pack_l f v).getD 0 0) ((pack_l f v).getD 1 0) ((pack_l f v).getD 2 0)
      ((pack_l f v).getD 3 0) = v := by
  cases hs : f.signed <;> rw [hs] at hv <;>
    simp only [Bool.false_eq_true, Bool.true_eq_false, eq_self_iff_true, if_true, if_false] at hv <;>
    cases hl : f.le <;>
    simp only [unpack_l, pack_l, hs, hl, Bool.false_eq_true, Bool.true_eq_false, if_false,
      if_true, eq_self_iff_true, false_and, true_and, false_or, or_false, List.getD_cons_succ,
      List.getD_cons_zero] <;>
    (try split_ifs) <;> omega

set_option maxHeartbeats 1600000 in
theorem rt_q (f : Flags) (v : Int)
    (hv : if f.signed then -9223372036854775808 ≤ v ∧ v < 9223372036854775808
          else 0 ≤ v ∧ v < 9223372036854775808) :
    unpack_q f ((pack_q f v).take 8) = .ok v := by
  cases hs : f.signed <;> rw [hs] at hv <;>
    simp only [Bool.false_eq_true, Bool.true_eq_false, eq_self_iff_true, if_true, if_false] at hv <;>
    cases hl : f.le <;>
    simp only [unpack_q, pack_q, hs, hl, Bool.false_eq_true, Bool.true_eq_false, if_false,
      if_true, eq_self_iff_true, false_and, true_and, false_or, or_false, List.getD_cons_succ,
      List.getD_cons_zero, List.take_succ_cons, List.take_nil, mrbIntMin, mrbIntMax] <;>
    (try split_ifs) <;>
      first | omega | (exfalso; omega) | (simp only [Except.ok.injEq]; omega)

theorem pack_one (hle : Bool) (c : Nat) (d : DirDesc) (o o' : PValue) (bs : List Nat)
    (hparse : read_tmpl hle [c] = .ok [d])
    (h1 : d.dir ≠ Dir.invalid) (h2 : d.dir ≠ Dir.nul) (h3 : d.dir ≠ Dir.str)
    (hcount : d.count = 1)
    (hco : coerceVal d.ty o = .ok o')
    (hcodec : packCodec hle d o' 1 = .ok bs) :
    pack_pack hle [c] [o] = .ok (1, bs) := by
  simp only [pack_pack, hparse]
  simp only [packDirs, packDirLoop, h1, h2, hcount, hco, hcodec, if_neg h3, if_false,
    one_ne_zero, false_and, not_false_eq_true, List.append_nil, List.drop_one]

theorem unpackVals_one (hle : Bool) (c : Nat) (d : DirDesc) (bs : List Nat)
    (vals : List PValue) (k : Int)
    (hparse : read_tmpl hle [c] = .ok [d])
    (h1 : d.dir ≠ Dir.invalid) (h2 : d.dir ≠ Dir.nul) (h3 : d.flags.count2 = false)
    (hcount : d.count = 1)
    (hsize : d.size ≤ (bs.length : Int))
    (hcodec : unpackCodec hle d bs bs.length = .ok (vals, k)) :
    unpackVals hle 2 bs [c] = some (.ok vals) := by
  simp only [unpackVals, pack_unpack, hparse]
  simp only [unpackDirs, h1, h2, h3, hcount, Bool.false_eq_true, if_false]
  rw [show (2 : Nat) = 1 + 1 from rfl]
  simp only [unpackNumLoop, one_ne_zero, if_false, sub_zero, Int.toNat_zero, List.drop_zero,
    if_neg (not_lt.mpr hsize), hcodec]
  norm_num [unpackNumLoop]


theorem engineRT (hle : Bool) (c : Nat) (v : Int) (d : DirDesc) (bs : List Nat) (k : Int)
    (hparse : read_tmpl hle [c] = .ok [d])
    (h1 : d.dir ≠ Dir.invalid) (h2 : d.dir ≠ Dir.nul) (h3 : d.dir ≠ Dir.str)
    (h4 : d.flags.count2 = false) (hty : d.ty = Ty.integer) (hcount : d.count = 1)
    (hsize : d.size ≤ (bs.length : Int))
    (hpc : packCodec hle d (PValue.int v) 1 = .ok bs)
    (huc : unpackCodec hle d bs bs.length = .ok ([PValue.int v], k)) :
    ∃ bs', pack_pack hle [c] [PValue.int v] = .ok (1, bs') ∧
      unpackVals hle 2 bs' [c] = some (.ok [PValue.int v]) :=
  ⟨bs, pack_one hle c d (PValue.int v) (PValue.int v) bs hparse h1 h2 h3 hcount
      (by rw [hty]; rfl) hpc,
    unpackVals_one hle c d bs [PValue.int v] k hparse h1 h2 h4 hcount hsize huc⟩

set_option maxHeartbeats 1000000 in
/-- C2 (amended): round trip for fixed-width numeric directives, for values
additionally within the host native integer range. -/
theorem claim2_theorem (hle : Bool) (c : Nat) (v : Int) (hc : c ∈ numDirChars)
    (hv : numRange c v) (hmax : v ≤ mrbIntMax) :
    ∃ bs, pack_pack hle [c] [PValue.int v] = .ok (1, bs) ∧
          unpackVals hle 2 bs [c] = some (.ok [PValue.int v]) := by
  simp only [mrbIntMax] at hmax
  simp only [numDirChars, List.mem_cons, List.not_mem_nil, or_false] at hc
  rcases hc with hcc | hcc | hcc | hcc | hcc | hcc | hcc | hcc | hcc | hcc | hcc | hcc
  · subst hcc
    norm_num [numRange, dirSignedChar, dirWidthBits] at hv
    refine engineRT hle 67 v (finalize hle (startDir 67)) (pack_c v) 1
      rfl (fun h => Dir.noConfusion h) (fun h => Dir.noConfusion h) (fun h => Dir.noConfusion h) rfl rfl rfl ?_ rfl ?_
    · rw [show (finalize hle (startDir 67)).size = (1 : Int) from rfl]; simp [pack_c]
    · calc unpackCodec hle (finalize hle (startDir 67)) (pack_c v) ↑(pack_c v).length
          = (Except.ok ([PValue.int (unpack_c (finalize hle (startDir 67)).flags ((pack_c v).getD 0 0))], 1) : Except PErr (List PValue × Int)) := rfl
        _ = .ok ([PValue.int v], 1) := by rw [rt_c (finalize hle (startDir 67)).flags v hv]
  · subst hcc
    norm_num [numRange, dirSignedChar, dirWidthBits] at hv
    refine engineRT hle 99 v (finalize hle (startDir 99)) (pack_c v) 1
      rfl (fun h => Dir.noConfusion h) (fun h => Dir.noConfusion h) (fun h => Dir.noConfusion h) rfl rfl rfl ?_ rfl ?_
    · rw [show (finalize hle (startDir 99)).size = (1 : Int) from rfl]; simp [pack_c]
    · calc unpackCodec hle (finalize hle (startDir 99)) (pack_c v) ↑(pack_c v).length
          = (Except.ok ([PValue.int (unpack_c (finalize hle (startDir 99)).flags ((pack_c v).getD 0 0))], 1) : Except PErr (List PValue × Int)) := rfl
        _ = .ok ([PValue.int v], 1) := by rw [rt_c (finalize hle (startDir 99)).flags v hv]
  · subst hcc
    norm_num [numRange, dirSignedChar, dirWidthBits] at hv
    refine engineRT hle 83 v (finalize hle (startDir 83)) (pack_s (finalize hle (startDir 83)).flags v) 2
      rfl (fun h => Dir.noConfusion h) (fun h => Dir.noConfusion h) (fun h => Dir.noConfusion h) rfl rfl rfl ?_ rfl ?_
    · rw [show (finalize hle (startDir 83)).size = (2 : Int) from rfl, pack_s_length]; norm_num
    · calc unpackCodec hle (finalize hle (startDir 83)) (pack_s (finalize hle (startDir 83)).flags v) ↑(pack_s (finalize hle (startDir 83)).flags v).length
          = (Except.ok ([PValue.int (unpack_s (finalize hle (startDir 83)).flags ((pack_s (finalize hle (startDir 83)).flags v).getD 0 0) ((pack_s (finalize hle (startDir 83)).flags v).getD 1 0))], 2) : Except PErr (List PValue × Int)) := rfl
        _ = .ok ([PValue.int v], 2) := by rw [rt_s (finalize hle (startDir 83)).flags v hv]
  · subst hcc
    norm_num [numRange, dirSignedChar, dirWidthBits] at hv
    refine engineRT hle 115 v (finalize hle (startDir 115)) (pack_s (finalize hle (startDir 115)).flags v) 2
      rfl (fun h => Dir.noConfusion h) (fun h => Dir.noConfusion h) (fun h => Dir.noConfusion h) rfl rfl rfl ?_ rfl ?_
    · rw [show (finalize hle (startDir 115)).size = (2 : Int) from rfl, pack_s_length]; norm_num
    · calc unpackCodec hle (finalize hle (startDir 115)) (pack_s (finalize hle (startDir 115)).flags v) ↑(pack_s (finalize hle (startDir 115)).flags v).length
          = (Except.ok ([PValue.int (unpack_s (finalize hle (startDir 115)).flags ((pack_s (finalize hle (startDir 115)).flags v).getD 0 0) ((pack_s (finalize hle (startDir 115)).flags v).getD 1 0))], 2) : Except PErr (List PValue × Int)) := rfl
        _ = .ok ([PValue.int v], 2) := by rw [rt_s (finalize hle (startDir 115)).flags v hv]
  · subst hcc
    norm_num [numRange, dirSignedChar, dirWidthBits] at hv
    refine engineRT hle 110 v (finalize hle (startDir 110)) (pack_s (finalize hle (startDir 110)).flags v) 2
      rfl (fun h => Dir.noConfusion h) (fun h => Dir.noConfusion h) (fun h => Dir.noConfusion h) rfl rfl rfl ?_ rfl ?_
    · rw [show (finalize hle (startDir 110)).size = (2 : Int) from rfl, pack_s_length]; norm_num
    · calc unpackCodec hle (finalize hle (startDir 110)) (pack_s (finalize hle (startDir 110)).flags v) ↑(pack_s (finalize hle (startDir 110)).flags v).length
          = (Except.ok ([PValue.int (unpack_s (finalize hle (startDir 110)).flags ((pack_s (finalize hle (startDir 110)).flags v).getD 0 0) ((pack_s (finalize hle (startDir 110)).flags v).getD 1 0))], 2) : Except PErr (List PValue × Int)) := rfl
        _ = .ok ([PValue.int v], 2) := by rw [rt_s (finalize hle (startDir 110)).flags v hv]
  · subst hcc
    norm_num [numRange, dirSignedChar, dirWidthBits] at hv
    refine engineRT hle 118 v (finalize hle (startDir 118)) (pack_s (finalize hle (startDir 118)).flags v) 2
      rfl (fun h => Dir.noConfusion h) (fun h => Dir.noConfusion h) (fun h => Dir.noConfusion h) rfl rfl rfl ?_ rfl ?_
    · rw [show (finalize hle (startDir 118)).size = (2 : Int) from rfl, pack_s_length]; norm_num
    · calc unpackCodec hle (finalize hle (startDir 118)) (pack_s (finalize hle (startDir 118)).flags v) ↑(pack_s (finalize hle (startDir 118)).flags v).length
          = (Except.ok ([PValue.int (unpack_s (finalize hle (startDir 118)).flags ((pack_s (finalize hle (startDir 118)).flags v).getD 0 0) ((pack_s (finalize hle (startDir 118)).flags v).getD 1 0))], 2) : Except PErr (List PValue × Int)) := rfl
        _ = .ok ([PValue.int v], 2) := by rw [rt_s (finalize hle (startDir 118)).flags v hv]
  · subst hcc
    norm_num [numRange, dirSignedChar, dirWidthBits] at hv
    refine engineRT hle 76 v (finalize hle (startDir 76)) (pack_l (finalize hle (startDir 76)).flags v) 4
      rfl (fun h => Dir.noConfusion h) (fun h => Dir.noConfusion h) (fun h => Dir.noConfusion h) rfl rfl rfl ?_ rfl ?_
    · rw [show (finalize hle (startDir 76)).size = (4 : Int) from rfl, pack_l_length]; norm_num
    · calc unpackCodec hle (finalize hle (startDir 76)) (pack_l (finalize hle (startDir 76)).flags v) ↑(pack_l (finalize hle (startDir 76)).flags v).length
          = (Except.ok ([PValue.int (unpack_l (finalize hle (startDir 76)).flags ((pack_l (finalize hle (startDir 76)).flags v).getD 0 0) ((pack_l (finalize hle (startDir 76)).flags v).getD 1 0) ((pack_l (finalize hle (startDir 76)).flags v).getD 2 0) ((pack_l (finalize hle (startDir 76)).flags v).getD 3 0))], 4) : Except PErr (List PValue × Int)) := rfl
        _ = .ok ([PValue.int v], 4) := by rw [rt_l (finalize hle (startDir 76)).flags v hv]
  · subst hcc
    norm_num [numRange, dirSignedChar, dirWidthBits] at hv
    refine engineRT hle 108 v (finalize hle (startDir 108)) (pack_l (finalize hle (startDir 108)).flags v) 4
      rfl (fun h => Dir.noConfusion h) (fun h => Dir.noConfusion h) (fun h => Dir.noConfusion h) rfl rfl rfl ?_ rfl ?_
    · rw [show (finalize hle (startDir 108)).size = (4 : Int) from rfl, pack_l_length]; norm_num
    · calc unpackCodec hle (finalize hle (startDir 108)) (pack_l (finalize hle (startDir 108)).flags v) ↑(pack_l (finalize hle (startDir 108)).flags v).length
          = (Except.ok ([PValue.int (unpack_l (finalize hle (startDir 108)).flags ((pack_l (finalize hle (startDir 108)).flags v).getD 0 0) ((pack_l (finalize hle (startDir 108)).flags v).getD 1 0) ((pack_l (finalize hle (startDir 108)).flags v).getD 2 0) ((pack_l (finalize hle (startDir 108)).flags v).getD 3 0))], 4) : Except PErr (List PValue × Int)) := rfl
        _ = .ok ([PValue.int v], 4) := by rw [rt_l (finalize hle (startDir 108)).flags v hv]
  · subst hcc
    norm_num [numRange, dirSignedChar, dirWidthBits] at hv
    refine engineRT hle 78 v (finalize hle (startDir 78)) (pack_l (finalize hle (startDir 78)).flags v) 4
      rfl (fun h => Dir.noConfusion h) (fun h => Dir.noConfusion h) (fun h => Dir.noConfusion h) rfl rfl rfl ?_ rfl ?_
    · rw [show (finalize hle (startDir 78)).size = (4 : Int) from rfl, pack_l_length]; norm_num
    · calc unpackCodec hle (finalize hle (startDir 78)) (pack_l (finalize hle (startDir 78)).flags v) ↑(pack_l (finalize hle (startDir 78)).flags v).length
          = (Except.ok ([PValue.int (unpack_l (finalize hle (startDir 78)).flags ((pack_l (finalize hle (startDir 78)).flags v).getD 0 0) ((pack_l (finalize hle (startDir 78)).flags v).getD 1 0) ((pack_l (finalize hle (startDir 78)).flags v).getD 2 0) ((pack_l (finalize hle (startDir 78)).flags v).getD 3 0))], 4) : Except PErr (List PValue × Int)) := rfl
        _ = .ok ([PValue.int v], 4) := by rw [rt_l (finalize hle (startDir 78)).flags v hv]
  · subst hcc
    norm_num [numRange, dirSignedChar, dirWidthBits] at hv
    refine engineRT hle 86 v (finalize hle (startDir 86)) (pack_l (finalize hle (startDir 86)).flags v) 4
      rfl (fun h => Dir.noConfusion h) (fun h => Dir.noConfusion h) (fun h => Dir.noConfusion h) rfl rfl rfl ?_ rfl ?_
    · rw [show (finalize hle (startDir 86)).size = (4 : Int) from rfl, pack_l_length]; norm_num
    · calc unpackCodec hle (finalize hle (startDir 86)) (pack_l (finalize hle (startDir 86)).flags v) ↑(pack_l (finalize hle (startDir 86)).flags v).length
          = (Except.ok ([PValue.int (unpack_l (finalize hle (startDir 86)).flags ((pack_l (finalize hle (startDir 86)).flags v).getD 0 0) ((pack_l (finalize hle (startDir 86)).flags v).getD 1 0) ((pack_l (finalize hle (startDir 86)).flags v).getD 2 0) ((pack_l (finalize hle (startDir 86)).flags v).getD 3 0))], 4) : Except PErr (List PValue × Int)) := rfl
        _ = .ok ([PValue.int v], 4) := by rw [rt_l (finalize hle (startDir 86)).flags v hv]
  · subst hcc
    norm_num [numRange, dirSignedChar, dirWidthBits] at hv
    refine engineRT hle 81 v (finalize hle (startDir 81)) (pack_q (finalize hle (startDir 81)).flags v) 8
      rfl (fun h => Dir.noConfusion h) (fun h => Dir.noConfusion h) (fun h => Dir.noConfusion h) rfl rfl rfl ?_ rfl ?_
    · rw [show (finalize hle (startDir 81)).size = (8 : Int) from rfl, pack_q_length]; norm_num
    · calc unpackCodec hle (finalize hle (startDir 81)) (pack_q (finalize hle (startDir 81)).flags v) ↑(pack_q (finalize hle (startDir 81)).flags v).length
          = ((match unpack_q (finalize hle (startDir 81)).flags ((pack_q (finalize hle (startDir 81)).flags v).take 8) with
           | .error e => (.error e : Except PErr (List PValue × Int))
           | .ok n => .ok ([PValue.int n], 8)) : Except PErr (List PValue × Int)) := rfl
        _ = .ok ([PValue.int v], 8) := by rw [rt_q (finalize hle (startDir 81)).flags v ⟨hv.1, by omega⟩]
  · subst hcc
    norm_num [numRange, dirSignedChar, dirWidthBits] at hv
    refine engineRT hle 113 v (finalize hle (startDir 113)) (pack_q (finalize hle (startDir 113)).flags v) 8
      rfl (fun h => Dir.noConfusion h) (fun h => Dir.noConfusion h) (fun h => Dir.noConfusion h) rfl rfl rfl ?_ rfl ?_
    · rw [show (finalize hle (startDir 113)).size = (8 : Int) from rfl, pack_q_length]; norm_num
    · calc unpackCodec hle (finalize hle (startDir 113)) (pack_q (finalize hle (startDir 113)).flags v) ↑(pack_q (finalize hle (startDir 113)).flags v).length
          = ((match unpack_q (finalize hle (startDir 113)).flags ((pack_q (finalize hle (startDir 113)).flags v).take 8) with
           | .error e => (.error e : Except PErr (List PValue × Int))
           | .ok n => .ok ([PValue.int n], 8)) : Except PErr (List PValue × Int)) := rfl
        _ = .ok ([PValue.int v], 8) := by rw [rt_q (finalize hle (startDir 113)).flags v hv]

theorem pack_c_period (v : Int) : pack_c (v + 256) = pack_c v := by
  simp only [pack_c, List.cons.injEq, and_true]; omega

theorem pack_s_period (f : Flags) (v : Int) : pack_s f (v + 65536) = pack_s f v := by
  cases hl : f.le <;>
    simp only [pack_s, hl, Bool.false_eq_true, Bool.true_eq_false, if_false, if_true,
      eq_self_iff_true, List.cons.injEq, and_true] <;> omega

theorem pack_l_period (f : Flags) (v : Int) : pack_l f (v + 4294967296) = pack_l f v := by
  cases hl : f.le <;>
    simp only [pack_l, hl, Bool.false_eq_true, Bool.true_eq_false, if_false, if_true,
      eq_self_iff_true, List.cons.injEq, and_true] <;> omega

theorem pack_q_period (f : Flags) (v : Int) :
    pack_q f (v + 18446744073709551616) = pack_q f v := by
  cases hl : f.le <;>
    simp only [pack_q, hl, Bool.false_eq_true, Bool.true_eq_false, if_false, if_true,
      eq_self_iff_true, List.cons.injEq, and_true] <;> omega

/-- C9: fixed-width integer pack never raises a range error; the value is
reduced modulo 2^width, so v and v + 2^width pack to identical bytes. -/
theorem claim9_theorem (hle : Bool) (c : Nat) (v : Int) (hc : c ∈ numDirChars) :
    ∃ bs, pack_pack hle [c] [PValue.int v] = .ok (1, bs) ∧
          pack_pack hle [c] [PValue.int (v + 2 ^ dirWidthBits c)] = .ok (1, bs) := by
  simp only [numDirChars, List.mem_cons, List.not_mem_nil, or_false] at hc
  rcases hc with hcc | hcc | hcc | hcc | hcc | hcc | hcc | hcc | hcc | hcc | hcc | hcc
  · subst hcc
    refine ⟨pack_c v,
      pack_one hle 67 (finalize hle (startDir 67)) (PValue.int v) (PValue.int v) (pack_c v)
        rfl (fun h => Dir.noConfusion h) (fun h => Dir.noConfusion h) (fun h => Dir.noConfusion h) rfl rfl rfl, ?_⟩
    have h2 := pack_one hle 67 (finalize hle (startDir 67)) (PValue.int (v + 256))
      (PValue.int (v + 256)) (pack_c (v + 256)) rfl (fun h => Dir.noConfusion h) (fun h => Dir.noConfusion h) (fun h => Dir.noConfusion h) rfl rfl rfl
    rw [show ((2 : Int) ^ dirWidthBits 67) = 256 from by norm_num [dirWidthBits]]
    rw [pack_c_period v] at h2
    exact h2
  · subst hcc
    refine ⟨pack_c v,
      pack_one hle 99 (finalize hle (startDir 99)) (PValue.int v) (PValue.int v) (pack_c v)
        rfl (fun h => Dir.noConfusion h) (fun h => Dir.noConfusion h) (fun h => Dir.noConfusion h) rfl rfl rfl, ?_⟩
    have h2 := pack_one hle 99 (finalize hle (startDir 99)) (PValue.int (v + 256))
      (PValue.int (v + 256)) (pack_c (v + 256)) rfl (fun h => Dir.noConfusion h) (fun h => Dir.noConfusion h) (fun h => Dir.noConfusion h) rfl rfl rfl
    rw [show ((2 : Int) ^ dirWidthBits 99) = 256 from by norm_num [dirWidthBits]]
    rw [pack_c_period v] at h2
    exact h2
  · subst hcc
    refine ⟨pack_s (finalize hle (startDir 83)).flags v,
      pack_one hle 83 (finalize hle (startDir 83)) (PValue.int v) (PValue.int v) (pack_s (finalize hle (startDir 83)).flags v)
        rfl (fun h => Dir.noConfusion h) (fun h => Dir.noConfusion h) (fun h => Dir.noConfusion h) rfl rfl rfl, ?_⟩
    have h2 := pack_one hle 83 (finalize hle (startDir 83)) (PValue.int (v + 65536))
      (PValue.int (v + 65536)) (pack_s (finalize hle (startDir 83)).flags (v + 65536)) rfl (fun h => Dir.noConfusion h) (fun h => Dir.noConfusion h) (fun h => Dir.noConfusion h) rfl rfl rfl
    rw [show ((2 : Int) ^ dirWidthBits 83) = 65536 from by norm_num [dirWidthBits]]
    rw [pack_s_period (finalize hle (startDir 83)).flags v] at h2
    exact h2
  · subst hcc
    refine ⟨pack_s (finalize hle (startDir 115)).flags v,
      pack_one hle 115 (finalize hle (startDir 115)) (PValue.int v) (PValue.int v) (pack_s (finalize hle (startDir 115)).flags v)
        rfl (fun h => Dir.noConfusion h) (fun h => Dir.noConfusion h) (fun h => Dir.noConfusion h) rfl rfl rfl, ?_⟩
    have h2 := pack_one hle 115 (finalize hle (startDir 115)) (PValue.int (v + 65536))
      (PValue.int (v + 65536)) (pack_s (finalize hle (startDir 115)).flags (v + 65536)) rfl (fun h => Dir.noConfusion h) (fun h => Dir.noConfusion h) (fun h => Dir.noConfusion h) rfl rfl rfl
    rw [show ((2 : Int) ^ dirWidthBits 115) = 65536 from by norm_num [dirWidthBits]]
    rw [pack_s_period (finalize hle (startDir 115)).flags v] at h2
    exact h2
  · subst hcc
    refine ⟨pack_s (finalize hle (startDir 110)).flags v,
      pack_one hle 110 (finalize hle (startDir 110)) (PValue.int v) (PValue.int v) (pack_s (finalize hle (startDir 110)).flags v)
        rfl (fun h => Dir.noConfusion h) (fun h => Dir.noConfusion h) (fun h => Dir.noConfusion h) rfl rfl rfl, ?_⟩
    have h2 := pack_one hle 110 (finalize hle (startDir 110)) (PValue.int (v + 65536))
      (PValue.int (v + 65536)) (pack_s (finalize hle (startDir 110)).flags (v + 65536)) rfl (fun h => Dir.noConfusion h) (fun h => Dir.noConfusion h) (fun h => Dir.noConfusion h) rfl rfl rfl
    rw [show ((2 : Int) ^ dirWidthBits 110) = 65536 from by norm_num [dirWidthBits]]
    rw [pack_s_period (finalize hle (startDir 110)).flags v] at h2
    exact h2
  · subst hcc
    refine ⟨pack_s (finalize hle (startDir 118)).flags v,
      pack_one hle 118 (finalize hle (startDir 118)) (PValue.int v) (PValue.int v) (pack_s (finalize hle (startDir 118)).flags v)
        rfl (fun h => Dir.noConfusion h) (fun h => Dir.noConfusion h) (fun h => Dir.noConfusion h) rfl rfl rfl, ?_⟩
    have h2 := pack_one hle 118 (finalize hle (startDir 118)) (PValue.int (v + 65536))
      (PValue.int (v + 65536)) (pack_s (finalize hle (startDir 118)).flags (v + 65536)) rfl (fun h => Dir.noConfusion h) (fun h => Dir.noConfusion h) (fun h => Dir.noConfusion h) rfl rfl rfl
    rw [show ((2 : Int) ^ dirWidthBits 118) = 65536 from by norm_num [dirWidthBits]]
    rw [pack_s_period (finalize hle (startDir 118)).flags v] at h2
    exact h2
  · subst hcc
    refine ⟨pack_l (finalize hle (startDir 76)).flags v,
      pack_one hle 76 (finalize hle (startDir 76)) (PValue.int v) (PValue.int v) (pack_l (finalize hle (startDir 76)).flags v)
        rfl (fun h => Dir.noConfusion h) (fun h => Dir.noConfusion h) (fun h => Dir.noConfusion h) rfl rfl rfl, ?_⟩
    have h2 := pack_one hle 76 (finalize hle (startDir 76)) (PValue.int (v + 4294967296))
      (PValue.int (v + 4294967296)) (pack_l (finalize hle (startDir 76)).flags (v + 4294967296)) rfl (fun h => Dir.noConfusion h) (fun h => Dir.noConfusion h) (fun h => Dir.noConfusion h) rfl rfl rfl
    rw [show ((2 : Int) ^ dirWidthBits 76) = 4294967296 from by norm_num [dirWidthBits]]
    rw [pack_l_period (finalize hle (startDir 76)).flags v] at h2
    exact h2
  · subst hcc
    refine ⟨pack_l (finalize hle (startDir 108)).flags v,
      pack_one hle 108 (finalize hle (startDir 108)) (PValue.int v) (PValue.int v) (pack_l (finalize hle (startDir 108)).flags v)
        rfl (fun h => Dir.noConfusion h) (fun h => Dir.noConfusion h) (fun h => Dir.noConfusion h) rfl rfl rfl, ?_⟩
    have h2 := pack_one hle 108 (finalize hle (startDir 108)) (PValue.int (v + 4294967296))
      (PValue.int (v + 4294967296)) (pack_l (finalize hle (startDir 108)).flags (v + 4294967296)) rfl (fun h => Dir.noConfusion h) (fun h => Dir.noConfusion h) (fun h => Dir.noConfusion h) rfl rfl rfl
    rw [show ((2 : Int) ^ dirWidthBits 108) = 4294967296 from by norm_num [dirWidthBits]]
    rw [pack_l_period (finalize hle (startDir 108)).flags v] at h2
    exact h2
  · subst hcc
    refine ⟨pack_l (finalize hle (startDir 78)).flags v,
      pack_one hle 78 (finalize hle (startDir 78)) (PValue.int v) (PValue.int v) (pack_l (finalize hle (startDir 78)).flags v)
        rfl (fun h => Dir.noConfusion h) (fun h => Dir.noConfusion h) (fun h => Dir.noConfusion h) rfl rfl rfl, ?_⟩
    have h2 := pack_one hle 78 (finalize hle (startDir 78)) (PValue.int (v + 4294967296))
      (PValue.int (v + 4294967296)) (pack_l (finalize hle (startDir 78)).flags (v + 4294967296)) rfl (fun h => Dir.noConfusion h) (fun h => Dir.noConfusion h) (fun h => Dir.noConfusion h) rfl rfl rfl
    rw [show ((2 : Int) ^ dirWidthBits 78) = 4294967296 from by norm_num [dirWidthBits]]
    rw [pack_l_period (finalize hle (startDir 78)).flags v] at h2
    exact h2
  · subst hcc
    refine ⟨pack_l (finalize hle (startDir 86)).flags v,
      pack_one hle 86 (finalize hle (startDir 86)) (PValue.int v) (PValue.int v) (pack_l (finalize hle (startDir 86)).flags v)
        rfl (fun h => Dir.noConfusion h) (fun h => Dir.noConfusion h) (fun h => Dir.noConfusion h) rfl rfl rfl, ?_⟩
    have h2 := pack_one hle 86 (finalize hle (startDir 86)) (PValue.int (v + 4294967296))
      (PValue.int (v + 4294967296)) (pack_l (finalize hle (startDir 86)).flags (v + 4294967296)) rfl (fun h => Dir.noConfusion h) (fun h => Dir.noConfusion h) (fun h => Dir.noConfusion h) rfl rfl rfl
    rw [show ((2 : Int) ^ dirWidthBits 86) = 4294967296 from by norm_num [dirWidthBits]]
    rw [pack_l_period (finalize hle (startDir 86)).flags v] at h2
    exact h2
  · subst hcc
    refine ⟨pack_q (finalize hle (startDir 81)).flags v,
      pack_one hle 81 (finalize hle (startDir 81)) (PValue.int v) (PValue.int v) (pack_q (finalize hle (startDir 81)).flags v)
        rfl (fun h => Dir.noConfusion h) (fun h => Dir.noConfusion h) (fun h => Dir.noConfusion h) rfl rfl rfl, ?_⟩
    have h2 := pack_one hle 81 (finalize hle (startDir 81)) (PValue.int (v + 18446744073709551616))
      (PValue.int (v + 18446744073709551616)) (pack_q (finalize hle (startDir 81)).flags (v + 18446744073709551616)) rfl (fun h => Dir.noConfusion h) (fun h => Dir.noConfusion h) (fun h => Dir.noConfusion h) rfl rfl rfl
    rw [show ((2 : Int) ^ dirWidthBits 81) = 18446744073709551616 from by norm_num [dirWidthBits]]
    rw [pack_q_period (finalize hle (startDir 81)).flags v] at h2
    exact h2
  · subst hcc
    refine ⟨pack_q (finalize hle (startDir 113)).flags v,
      pack_one hle 113 (finalize hle (startDir 113)) (PValue.int v) (PValue.int v) (pack_q (finalize hle (startDir 113)).flags v)
        rfl (fun h => Dir.noConfusion h) (fun h => Dir.noConfusion h) (fun h => Dir.noConfusion h) rfl rfl rfl, ?_⟩
    have h2 := pack_one hle 113 (finalize hle (startDir 113)) (PValue.int (v + 18446744073709551616))
      (PValue.int (v + 18446744073709551616)) (pack_q (finalize hle (startDir 113)).flags (v + 18446744073709551616)) rfl (fun h => Dir.noConfusion h) (fun h => Dir.noConfusion h) (fun h => Dir.noConfusion h) rfl rfl rfl
    rw [show ((2 : Int) ^ dirWidthBits 113) = 18446744073709551616 from by norm_num [dirWidthBits]]
    rw [pack_q_period (finalize hle (startDir 113)).flags v] at h2
    exact h2

/-- C9 witness at a concrete out-of-range input. -/
theorem claim9_witness :
    ∃ bs, pack_pack true [67] [PValue.int 300] = .ok (1, bs) ∧
          pack_pack true [67] [PValue.int (300 + 2 ^ dirWidthBits 67)] = .ok (1, bs) :=
  claim9_theorem true 67 300 (by norm_num [numDirChars])

/-- C2 witness at a concrete input. -/
theorem claim2_witness :
    ∃ bs, pack_pack false [83] [PValue.int 5] = .ok (1, bs) ∧
          unpackVals false 2 bs [83] = some (.ok [PValue.int 5]) :=
  claim2_theorem false 83 5 (by norm_num [numDirChars])
    (by norm_num [numRange, dirSignedChar, dirWidthBits]) (by norm_num [mrbIntMax])

/-- C2 counterexample: 2^63 is representable at Q's width (unsigned 64-bit),
but unpack raises a RangeError instead of returning it. -/
theorem claim2_counterexample :
    numRange 81 9223372036854775808 ∧
    pack_pack false [81] [PValue.int 9223372036854775808] =
      .ok (1, [128, 0, 0, 0, 0, 0, 0, 0]) ∧
    unpackVals false 2 [128, 0, 0, 0, 0, 0, 0, 0] [81] =
      some (.error (PErr.cannotUnpackNum 9223372036854775808)) ∧
    some (.error (PErr.cannotUnpackNum 9223372036854775808)) ≠
      (some (.ok [PValue.int 9223372036854775808]) : Option (Except PErr (List PValue))) := by
  refine ⟨by norm_num [numRange, dirSignedChar, dirWidthBits], rfl, rfl, by simp⟩

/-- C10: "x*" on unpack consumes all remaining bytes without error; on pack
it writes nothing; also stated against the engines for a parsed x*
directive. -/
theorem claim10_theorem :
    (∀ slen : Int, unpack_x slen (-1) = .ok slen) ∧
    pack_x (-1) = [] ∧
    (∀ (hle : Bool) (fuel : Nat) (str : List Nat) (d : DirDesc),
      d.dir = Dir.nul → d.count = -1 →
      unpackDirs hle fuel str [d] 0 [] [] false =
        some (.ok ((str.length : Int), [], [(str.length : Int)]))) ∧
    (∀ (hle : Bool) (d : DirDesc) (vals : List PValue),
      d.dir = Dir.nul → d.count = -1 → packDirs hle [d] vals = .ok (0, [])) := by
  refine ⟨fun slen => by simp [unpack_x], by simp [pack_x], ?_, ?_⟩
  · intro hle fuel str d hdir hcount
    simp [unpackDirs, hdir, hcount, unpack_x]
  · intro hle d vals hdir hcount
    simp [packDirs, hdir, hcount, pack_x]

/-- C10 witness at concrete inputs. -/
theorem claim10_witness :
    unpack_x 7 (-1) = .ok 7 ∧
    unpackDirs false 1 [9, 9, 9] [⟨Dir.nul, Ty.noneT, 0, -1, {}⟩] 0 [] [] false =
      some (.ok (3, [], [3])) ∧
    packDirs false [⟨Dir.nul, Ty.noneT, 0, -1, {}⟩] [PValue.int 5] = .ok (0, []) :=
  ⟨claim10_theorem.1 7,
   claim10_theorem.2.2.1 false 1 [9, 9, 9] ⟨Dir.nul, Ty.noneT, 0, -1, {}⟩ rfl rfl,
   claim10_theorem.2.2.2 false ⟨Dir.nul, Ty.noneT, 0, -1, {}⟩ [PValue.int 5] rfl rfl⟩

/-- C4: on unpack, a numeric-kind directive with repetitions still
requested appends one nil per remaining repetition and stops, without
error, whenever fewer than `size` bytes remain; in particular
`unpack("\x01", "S")` is `[nil]`. -/
theorem claim4_theorem :
    (∀ (hle : Bool) (fuel : Nat) (d : DirDesc) (str : List Nat) (idx count : Int)
       (res : List PValue) (tr : List Int),
       0 < count → (str.length : Int) - idx < d.size →
       unpackNumLoop hle d str (fuel + 1) idx count res tr =
         some (.ok (idx, res ++ List.replicate count.toNat PValue.nil, tr))) ∧
    (∀ hle : Bool, unpackVals hle 2 [1] [83] = some (.ok [PValue.nil])) := by
  constructor
  · intro hle fuel d str idx count res tr hpos hins
    simp only [unpackNumLoop, if_neg (by omega : ¬ count = 0), if_pos hins]
  · intro hle; cases hle <;> rfl

/-- C4 witness at concrete inputs. -/
theorem claim4_witness :
    unpackNumLoop false ⟨Dir.short, Ty.integer, 2, 1, {}⟩ [1] 1 0 1 [] [] =
      some (.ok (0, [PValue.nil], [])) ∧
    unpackVals true 2 [1] [83] = some (.ok [PValue.nil]) :=
  ⟨claim4_theorem.1 false 0 ⟨Dir.short, Ty.integer, 2, 1, {}⟩ [1] 0 1 [] []
      (by norm_num) (by norm_num),
   claim4_theorem.2 true⟩

/-- C3 counterexample: a leading byte declaring a 5-byte sequence
(0xF8) does not raise "malformed UTF-8"; the sequence F8 90 80 80 80
decodes to 0x400000, both at the codec and through `unpack("...","U")`. -/
theorem claim3_counterexample :
    utf8_to_uv [248, 144, 128, 128, 128] 5 = .ok (4194304, 5) ∧
    unpackVals false 2 [248, 144, 128, 128, 128] [85] =
      some (.ok [PValue.int 4194304]) :=
  ⟨rfl, rfl⟩

/-- C3 (amended): only a bare continuation byte (0x80–0xBF) or a leading
byte 0xFE/0xFF raises "malformed UTF-8"; leading bytes declaring 5- and
6-byte sequences decode like the other lengths, subject to the redundancy
minimums 0x200000 / 0x4000000. -/
theorem claim3_theorem :
    (∀ (b : Nat) (rest : List Nat) (lenp : Int), 254 ≤ b → b ≤ 255 →
       utf8_to_uv (b :: rest) lenp = .error PErr.malformedUTF8) ∧
    (∀ (b : Nat) (rest : List Nat) (lenp : Int), 128 ≤ b → b ≤ 191 →
       utf8_to_uv (b :: rest) lenp = .error PErr.malformedUTF8) ∧
    errClass PErr.malformedUTF8 = ErrClass.argument ∧
    utf8_to_uv [248, 144, 128, 128, 128] 5 = .ok (4194304, 5) ∧
    utf8_to_uv [252, 132, 128, 128, 128, 128] 6 = .ok (67108864, 6) ∧
    utf8_to_uv [248, 128, 128, 128, 128] 5 = .error PErr.redundantUTF8 := by
  refine ⟨?_, ?_, rfl, rfl, rfl, rfl⟩
  · intro b rest lenp h1 h2
    simp only [utf8_to_uv, List.getD_cons_zero]
    rw [Nat.mod_eq_of_lt (by omega)]
    rw [if_neg (by omega), if_neg (by omega), if_pos (by omega)]
  · intro b rest lenp h1 h2
    simp only [utf8_to_uv, List.getD_cons_zero]
    rw [Nat.mod_eq_of_lt (by omega)]
    rw [if_neg (by omega), if_pos (by omega)]

/-- C3 witness at a concrete input (leading byte 0xFE). -/
theorem claim3_witness :
    utf8_to_uv [254, 1, 2] 3 = .error PErr.malformedUTF8 :=
  claim3_theorem.1 254 [1, 2] 3 (by norm_num) (by norm_num)

/-- C6 counterexample: a modifier right after a NUL (0x00) directive byte
is accepted silently — `strchr("sSiIlLqQ", t)` matches the string's NUL
terminator for `t = 0` — so parsing "\0<" yields an invalid no-op
directive with the little-endian flags set and raises no ArgumentError,
although NUL is not one of sSiIlLqQ. -/
theorem claim6_counterexample :
    read_tmpl false [0, 60] =
      .ok [⟨Dir.invalid, Ty.noneT, 0, 1, { lt := true, le := true }⟩] ∧
    ∀ e : PErr,
      (Except.ok [(⟨Dir.invalid, Ty.noneT, 0, 1, { lt := true, le := true }⟩ : DirDesc)] :
        Except PErr (List DirDesc)) ≠ .error e :=
  ⟨rfl, fun _ h => Except.noConfusion h⟩

/-- C6 (amended): a modifier character is accepted exactly when the
preceding directive character resolves into `sSiIlLqQ` or is the NUL
byte (the `strchr` terminator match); after any other directive
character the parser raises an ArgumentError naming the modifier. -/
theorem claim6_theorem (hle : Bool) (c m : Nat) (rest : List Nat)
    (hm : m = 95 ∨ m = 33 ∨ m = 60 ∨ m = 62) :
    (resolveChar c ≠ 0 → resolveChar c ∉ modifierOkChars →
      read_tmpl hle (c :: m :: rest) = .error (PErr.modifierAfter m) ∧
      errClass (PErr.modifierAfter m) = ErrClass.argument) ∧
    (resolveChar c = 0 ∨ resolveChar c ∈ modifierOkChars →
      read_tmpl hle (c :: m :: rest) =
        readTmplGo hle
          { startDir c with
            flags := applyMod (startDir c).flags m,
            lastDigit := false } rest) := by
  constructor
  · intro h0 h
    refine ⟨?_, rfl⟩
    rcases hm with rfl | rfl | rfl | rfl <;>
      (simp only [read_tmpl, readTmplGo, stepSuffix, isSuffixChar, isdigitC]
       norm_num
       simp only [show (startDir c).tch = resolveChar c from rfl]
       rw [if_neg (by push_neg; exact ⟨h0, h⟩)])
  · intro h
    rcases hm with rfl | rfl | rfl | rfl <;>
      (simp only [read_tmpl, readTmplGo, stepSuffix, isSuffixChar, isdigitC]
       norm_num
       simp only [show (startDir c).tch = resolveChar c from rfl]
       rw [if_pos h])

/-- C6 witness: "C<" raises naming '<'; "S<" accepts the modifier. -/
theorem claim6_witness :
    read_tmpl false [67, 60] = .error (PErr.modifierAfter 60) ∧
    read_tmpl false [83, 60] =
      readTmplGo false
        { startDir 83 with
          flags := applyMod (startDir 83).flags 60,
          lastDigit := false } [] :=
  ⟨((claim6_theorem false 67 60 [] (by norm_num)).1 (by decide) (by decide)).1,
   (claim6_theorem false 83 60 [] (by norm_num)).2 (by decide)⟩

/-- C1 counterexample: the base64 directive "m" (count 1) packs an array
of two strings by consuming BOTH values (final value index 2), not
exactly one. -/
theorem claim1_counterexample :
    pack_pack false [109] [PValue.str [97], PValue.str [98]] =
      .ok (2, [89, 81, 61, 61, 10, 89, 103, 61, 61]) ∧ (2 : Nat) ≠ 1 :=
  ⟨rfl, by norm_num⟩

/-- C1 (amended): only the padded/terminated string directives (A/a/Z,
the `Dir.str` kind, which always carries the width flag) consume exactly
one value per occurrence regardless of the count; hex and base64 run the
ordinary repeat loop. -/
theorem claim1_theorem :
    (∀ (hle : Bool) (d : DirDesc) (s : List Nat) (rest : List PValue) (count : Int),
       d.dir = Dir.str → d.ty = Ty.string → d.flags.width = true →
       packDirLoop hle d (PValue.str s :: rest) count =
         .ok (1, pack_a d.flags count s)) ∧
    (∀ c ∈ [65, 97, 90], (startDir c).dir = Dir.str ∧ (startDir c).ty = Ty.string ∧
       (startDir c).flags.width = true) := by
  constructor
  · intro hle d s rest count hdir hty hw
    simp only [packDirLoop, hw, not_true, and_false, Bool.true_eq_false, if_false, hty,
      coerceVal, packCodec, hdir, if_true, if_pos trivial]
  · intro c hc
    fin_cases hc <;> exact ⟨rfl, rfl, rfl⟩

/-- C1 witness at a concrete input ("Z3" packing "hi" next to one more
value consumes exactly the first value). -/
theorem claim1_witness :
    packDirLoop false (finalize false (startDir 90)) [PValue.str [104, 105], PValue.int 0] 3 =
      .ok (1, pack_a (finalize false (startDir 90)).flags 3 [104, 105]) :=
  claim1_theorem.1 false (finalize false (startDir 90)) [104, 105] [PValue.int 0] 3 rfl rfl rfl

/-- C5 counterexample: pack(["abc"], "m0") emits no newline at all — count
0 disables wrapping instead of using the default line length 45. -/
theorem claim5_counterexample :
    pack_pack false [109, 48] [PValue.str [97, 98, 99]] = .ok (1, [89, 87, 74, 106]) ∧
    (10 : Nat) ∉ [89, 87, 74, 106] :=
  ⟨rfl, by decide⟩

theorem getD_ne_ten (l : List Nat) (j d : Nat) (hd : d ≠ 10) (hl : ∀ x ∈ l, x ≠ 10) :
    l.getD j d ≠ 10 := by
  induction l generalizing j with
  | nil => simpa [List.getD]
  | cons a t ih =>
    cases j with
    | zero => simpa using hl a (by simp)
    | succ j =>
      simp only [List.getD_cons_succ]
      exact ih j (fun x hx => hl x (by simp [hx]))

theorem b64c_ne_ten (j : Nat) : b64c j ≠ 10 :=
  getD_ne_ten base64chars j 65 (by norm_num) (by decide)

theorem getLast?_append_right (l1 l2 : List Nat) (a : Nat) (h : l2.getLast? = some a) :
    (l1 ++ l2).getLast? = some a := by
  have h2 : l2 ≠ [] := by intro he; rw [he] at h; simp at h
  rw [List.getLast?_append_of_ne_nil _ h2]; exact h

theorem packMGo_no_newline (count : Int) (hc : count ≤ 0) :
    ∀ (n : Nat) (src : List Nat) (col : Int), src.length ≤ n → 3 ≤ col →
      10 ∉ packMGo count col src := by
  intro n
  induction n with
  | zero =>
    intro src col h1 _
    have : src = [] := List.eq_nil_of_length_eq_zero (by omega)
    subst this
    simp only [packMGo, packMTail, List.nil_append]
    rw [if_neg (by omega)]
    simp
  | succ n ih =>
    intro src col h1 h2
    rcases src with _ | ⟨b0, _ | ⟨b1, _ | ⟨b2, rest⟩⟩⟩
    · simp only [packMGo, packMTail, List.nil_append]
      rw [if_neg (by omega)]
      simp
    · simp only [packMGo, packMTail]
      rw [if_neg (by omega)]
      simp only [List.append_nil, List.mem_cons, List.not_mem_nil, or_false]
      push_neg
      exact ⟨(b64c_ne_ten _).symm, (b64c_ne_ten _).symm, by norm_num, by norm_num⟩
    · simp only [packMGo, packMTail]
      rw [if_neg (by omega)]
      simp only [List.append_nil, List.mem_cons, List.not_mem_nil, or_false]
      push_neg
      exact ⟨(b64c_ne_ten _).symm, (b64c_ne_ten _).symm, (b64c_ne_ten _).symm, by norm_num⟩
    · have hcc : ¬ col = count := by omega
      simp only [packMGo, if_neg hcc]
      simp only [List.nil_append, List.append_nil, List.mem_append, List.mem_cons,
        List.not_mem_nil, or_false]
      push_neg
      refine ⟨⟨(b64c_ne_ten _).symm, (b64c_ne_ten _).symm, (b64c_ne_ten _).symm,
        (b64c_ne_ten _).symm⟩, ?_⟩
      exact ih rest (col + 3) (by simp at h1; omega) (by omega)

theorem packMGo_last_newline (count : Int) (hc : 0 < count) :
    ∀ (n : Nat) (src : List Nat) (col : Int), src.length ≤ n → 3 ≤ col →
      (packMGo count col src).getLast? = some 10 := by
  intro n
  induction n with
  | zero =>
    intro src col h1 h2
    have : src = [] := List.eq_nil_of_length_eq_zero (by omega)
    subst this
    simp only [packMGo, packMTail, List.nil_append]
    rw [if_pos ⟨by omega, hc⟩]
    rfl
  | succ n ih =>
    intro src col h1 h2
    rcases src with _ | ⟨b0, _ | ⟨b1, _ | ⟨b2, rest⟩⟩⟩
    · simp only [packMGo, packMTail, List.nil_append]
      rw [if_pos ⟨by omega, hc⟩]
      rfl
    · simp only [packMGo, packMTail]
      rw [if_pos ⟨by omega, hc⟩]
      exact getLast?_append_right _ _ _ rfl
    · simp only [packMGo, packMTail]
      rw [if_pos ⟨by omega, hc⟩]
      exact getLast?_append_right _ _ _ rfl
    · simp only [packMGo]
      have hrec := ih rest ((if col = count then 0 else col) + 3)
        (by simp at h1; omega) (by split_ifs <;> omega)
      exact getLast?_append_right _ _ _ hrec

/-- C5 (amended): counts 1, 2 and consume-all normalize to the default
line length 45 and counts ≥ 3 round down to a multiple of 3, but count 0
disables wrapping entirely: no newline appears in the output; whenever
the normalized count is positive and the source nonempty, the output
ends with a newline. -/
theorem claim5_theorem :
    normCountM (-1) = 45 ∧ normCountM 1 = 45 ∧ normCountM 2 = 45 ∧ normCountM 0 = 0 ∧
    (∀ k : Int, 3 ≤ k → normCountM k = k - k % 3) ∧
    (∀ src : List Nat, (10 : Nat) ∉ pack_m 0 src) ∧
    (∀ (c : Int) (src : List Nat), 0 < normCountM c → src ≠ [] →
      (pack_m c src).getLast? = some 10) := by
  refine ⟨rfl, rfl, rfl, rfl, ?_, ?_, ?_⟩
  · intro k hk
    simp only [normCountM]
    rw [if_neg (by omega), if_pos (by omega)]
  · intro src
    by_cases h : src.length = 0
    · simp [pack_m, h]
    · simp only [pack_m, if_neg h]
      rw [show normCountM 0 = 0 from rfl]
      exact packMGo_no_newline 0 (by norm_num) src.length src 3 le_rfl (by norm_num)
  · intro c src hpos hne
    have h : ¬ src.length = 0 := by simpa using hne
    simp only [pack_m, if_neg h]
    exact packMGo_last_newline (normCountM c) hpos src.length src 3 le_rfl (by norm_num)

/-- C5 witness: count 4 wraps after 3 source bytes and the wrapped output
of a 4-byte source ends with a newline. -/
theorem claim5_witness :
    normCountM 4 = 4 - 4 % 3 ∧ (10 : Nat) ∉ pack_m 0 [97, 98] ∧
    (pack_m 4 [97, 98, 99, 100]).getLast? = some 10 :=
  ⟨(claim5_theorem.2.2.2.2.1) 4 (by norm_num),
   (claim5_theorem.2.2.2.2.2.1) [97, 98],
   (claim5_theorem.2.2.2.2.2.2) 4 [97, 98, 99, 100] (by norm_num [normCountM]) (by simp)⟩

/-- C8 counterexample: `unpack1("ab", "xC")` returns 98 (the C value),
although the first directive of the template (the null-padding "x")
produced no value — the single-value walk skips past "x" instead of
stopping with the no-value marker. -/
theorem claim8_counterexample :
    unpack1Val false 4 [97, 98] [120, 67] = some (.ok (some (PValue.int 98))) ∧
    (some (Except.ok (some (PValue.int 98))) : Option (Except PErr (Option PValue))) ≠
      some (.ok (some PValue.nil)) :=
  ⟨rfl, by simp⟩

/-- C8 (amended): in single-value mode the walk stops after the first
directive that enters the numeric repeat loop — the rest of the template
is discarded — while unrecognized, null-padding and count2 string/hex
directives are processed without stopping; the returned value is the head
of the accumulated sequence (out-of-bounds when it is empty, modelled as
`none`). -/
theorem claim8_theorem (hle : Bool) (fuel : Nat) (str : List Nat) (d : DirDesc)
    (ds : List DirDesc)
    (h1 : d.dir ≠ Dir.invalid) (h2 : d.dir ≠ Dir.nul) (h3 : d.flags.count2 = false) :
    unpack1Descs hle fuel str (d :: ds) = unpack1Descs hle fuel str [d] := by
  simp only [unpack1Descs, unpackDirs, h1, h2, h3, Bool.false_eq_true, if_false]
  cases hloop : unpackNumLoop hle d str fuel 0 d.count [] [] with
  | none => rfl
  | some x =>
    cases x with
    | error e => rfl
    | ok r => rfl

/-- C8 witness: a short directive followed by more template is cut off
after the first directive. -/
theorem claim8_witness :
    unpack1Descs false 3 [1, 2, 3, 4]
      [⟨Dir.short, Ty.integer, 2, 1, {}⟩, ⟨Dir.char, Ty.integer, 1, 1, {}⟩] =
    unpack1Descs false 3 [1, 2, 3, 4] [⟨Dir.short, Ty.integer, 2, 1, {}⟩] :=
  claim8_theorem false 3 [1, 2, 3, 4] ⟨Dir.short, Ty.integer, 2, 1, {}⟩
    [⟨Dir.char, Ty.integer, 1, 1, {}⟩] (by decide) (by decide) rfl

theorem startDir_wf (c : Nat) :
    (startDir c).size = dirSizeOf (startDir c).dir ∧ -1 ≤ (startDir c).count := by
  simp only [startDir, dirTable]
  split <;> exact ⟨rfl, by norm_num⟩

theorem stepSuffix_wf (p p' : Pending) (ch : Nat) (h : stepSuffix p ch = .ok p')
    (hp : p.size = dirSizeOf p.dir ∧ -1 ≤ p.count) :
    p'.size = dirSizeOf p'.dir ∧ -1 ≤ p'.count := by
  simp only [stepSuffix] at h
  split at h
  · split at h
    · split at h
      · exact absurd h (by simp)
      · injection h with h2
        subst h2
        refine ⟨hp.1, ?_⟩
        show -1 ≤ p.count * 10 + ((ch : Int) - 48)
        omega
    · split at h
      · exact absurd h (by simp)
      · injection h with h2
        subst h2
        refine ⟨hp.1, ?_⟩
        show -1 ≤ (ch : Int) - 48
        omega
  · split at h
    · rw [Except.ok.injEq] at h
      subst h
      exact ⟨hp.1, by norm_num⟩
    · split at h
      · rw [Except.ok.injEq] at h
        subst h
        exact ⟨hp.1, hp.2⟩
      · exact absurd h (by simp)

theorem readTmplGo_wf (hle : Bool) :
    ∀ (rest : List Nat) (p : Pending) (ds : List DirDesc),
      readTmplGo hle p rest = .ok ds →
      p.size = dirSizeOf p.dir ∧ -1 ≤ p.count →
      ∀ d ∈ ds, descWF d := by
  intro rest
  induction rest with
  | nil =>
    intro p ds h hp d hd
    simp only [readTmplGo, Except.ok.injEq] at h
    subst h
    simp only [List.mem_singleton] at hd
    subst hd
    exact ⟨hp.1, hp.2⟩
  | cons ch rest ih =>
    intro p ds h hp d hd
    simp only [readTmplGo] at h
    split at h
    · cases hs : stepSuffix p ch with
      | error e => rw [hs] at h; exact absurd h (by simp)
      | ok p' =>
        rw [hs] at h
        exact ih p' ds h (stepSuffix_wf p p' ch hs hp) d hd
    · cases hr : readTmplGo hle (startDir ch) rest with
      | error e => rw [hr] at h; exact absurd h (by simp)
      | ok ds' =>
        rw [hr, Except.ok.injEq] at h
        subst h
        rcases List.mem_cons.mp hd with hd1 | hd2
        · subst hd1; exact ⟨hp.1, hp.2⟩
        · exact ih (startDir ch) ds' hr (startDir_wf ch) d hd2

theorem read_tmpl_wf (hle : Bool) (tmpl : List Nat) (ds : List DirDesc)
    (h : read_tmpl hle tmpl = .ok ds) : ∀ d ∈ ds, descWF d := by
  cases tmpl with
  | nil =>
    simp only [read_tmpl, Except.ok.injEq] at h
    subst h
    intro d hd
    exact absurd hd (List.not_mem_nil d)
  | cons c rest =>
    exact readTmplGo_wf hle rest (startDir c) ds h (startDir_wf c)


theorem utf8LeadLen_ge (c : Nat) : 2 ≤ utf8LeadLen c := by
  unfold utf8LeadLen; split_ifs <;> norm_num

theorem utf8_to_uv_len (p : List Nat) (lenp : Int) (uv : Nat) (k : Int)
    (h : utf8_to_uv p lenp = .ok (uv, k)) (hl : 1 ≤ lenp) : 1 ≤ k ∧ k ≤ lenp := by
  have hn := utf8LeadLen_ge (p.getD 0 0 % 256)
  simp only [utf8_to_uv] at h
  split at h
  · injection h with h2
    rw [Prod.mk.injEq] at h2
    omega
  · split at h
    · exact absurd h (by simp)
    · split at h
      · exact absurd h (by simp)
      · split at h
        · exact absurd h (by simp)
        · split at h
          · exact absurd h (by simp)
          · split at h
            · exact absurd h (by simp)
            · injection h with h2
              rw [Prod.mk.injEq] at h2
              omega

theorem unpackHGo_le (a b : Nat) :
    ∀ (src : List Nat) (count : Int), (unpackHGo a b count src).2 ≤ src.length := by
  intro src
  induction src with
  | nil => intro count; simp [unpackHGo]
  | cons c rest ih =>
    intro count
    simp only [unpackHGo]
    split
    · simp
    · split
      · simp
      · have := ih (count - 2)
        simp only [List.length_cons]
        omega

theorem memchr0_lt (l : List Nat) (i : Nat) (h : memchr0 l = some i) : i < l.length := by
  induction l generalizing i with
  | nil => exact absurd h (by simp [memchr0])
  | cons a t ih =>
    simp only [memchr0] at h
    split at h
    · injection h with h2
      simp only [List.length_cons]
      omega
    · cases ht : memchr0 t with
      | none => rw [ht] at h; exact absurd h (by simp)
      | some j =>
        rw [ht] at h
        simp at h
        have := ih j ht
        simp only [List.length_cons]
        omega

theorem unpack_a_bound (f : Flags) (count : Int) (src : List Nat) (slen0 : Int)
    (hc : -1 ≤ count) (hs : -1 ≤ slen0) :
    (unpack_a f count src slen0).2 ≤ max slen0 0 ∧ -1 ≤ (unpack_a f count src slen0).2 ∧
      ((unpack_a f count src slen0).2 < 0 → slen0 < 0) := by
  simp only [unpack_a]
  split <;>
    (split
     · split
       · rename_i hm
         have hi := memchr0_lt _ _ hm
         simp only [List.length_take] at hi
         try dsimp only
         (try split_ifs) <;> omega
       · try dsimp only
         (try split_ifs) <;> omega
     · split <;> (try dsimp only) <;> (try split_ifs) <;> omega)

theorem unpack_m_le (src : List Nat) : (unpack_m src).2 ≤ src.length := Nat.sub_le _ _

theorem unpackCodec_bound (hle : Bool) (d : DirDesc) (str : List Nat) (idx : Int)
    (vals : List PValue) (k : Int)
    (hwf : d.size = dirSizeOf d.dir)
    (hc : unpackCodec hle d (str.drop idx.toNat) ((str.length : Int) - idx) = .ok (vals, k))
    (h0 : 0 ≤ idx) (h1 : idx ≤ (str.length : Int) + 1)
    (hsz : ¬ ((str.length : Int) - idx < d.size)) :
    0 ≤ idx + k ∧ idx + k ≤ (str.length : Int) + 1 := by
  rw [hwf] at hsz
  cases hdd : d.dir <;> rw [hdd] at hsz <;> simp only [dirSizeOf] at hsz <;>
    simp only [unpackCodec, hdd] at hc
  case char =>
    rw [Except.ok.injEq, Prod.mk.injEq] at hc
    omega
  case short =>
    rw [Except.ok.injEq, Prod.mk.injEq] at hc
    omega
  case long =>
    rw [Except.ok.injEq, Prod.mk.injEq] at hc
    omega
  case quad =>
    split at hc
    · exact absurd hc (by simp)
    · rw [Except.ok.injEq, Prod.mk.injEq] at hc
      omega
  case utf8 =>
    simp only [unpack_utf8] at hc
    split at hc
    · rw [Except.ok.injEq, Prod.mk.injEq] at hc
      omega
    · split at hc
      · exact absurd hc (by simp)
      · rename_i huv
        rw [Except.ok.injEq, Prod.mk.injEq] at hc
        have hlen := utf8_to_uv_len _ _ _ _ huv (by omega)
        omega
  case base64 =>
    rw [Except.ok.injEq, Prod.mk.injEq] at hc
    have hm := unpack_m_le (str.drop idx.toNat)
    simp only [List.length_drop] at hm
    omega
  case flt =>
    rw [Except.ok.injEq, Prod.mk.injEq] at hc
    omega
  case dbl =>
    rw [Except.ok.injEq, Prod.mk.injEq] at hc
    omega
  case str => exact absurd hc (by simp)
  case hex => exact absurd hc (by simp)
  case nul => exact absurd hc (by simp)
  case invalid => exact absurd hc (by simp)

theorem unpackNumLoop_inv (hle : Bool) (d : DirDesc) (str : List Nat)
    (hwf : d.size = dirSizeOf d.dir) :
    ∀ (fuel : Nat) (idx count : Int) (res : List PValue) (tr : List Int)
      (idx' : Int) (res' : List PValue) (tr' : List Int),
      unpackNumLoop hle d str fuel idx count res tr = some (.ok (idx', res', tr')) →
      0 ≤ idx → idx ≤ (str.length : Int) + 1 →
      (∀ x ∈ tr, 0 ≤ x ∧ x ≤ (str.length : Int) + 1) →
      (∀ x ∈ tr', 0 ≤ x ∧ x ≤ (str.length : Int) + 1) ∧ 0 ≤ idx' ∧
        idx' ≤ (str.length : Int) + 1 := by
  intro fuel
  induction fuel with
  | zero =>
    intro idx count res tr idx' res' tr' h
    exact absurd h (by simp [unpackNumLoop])
  | succ fuel ih =>
    intro idx count res tr idx' res' tr' h h0 h1 htr
    simp only [unpackNumLoop] at h
    split at h
    · simp only [Option.some.injEq, Except.ok.injEq, Prod.mk.injEq] at h
      obtain ⟨he1, _, he3⟩ := h
      subst he1; subst he3
      exact ⟨htr, h0, h1⟩
    · split at h
      · simp only [Option.some.injEq, Except.ok.injEq, Prod.mk.injEq] at h
        obtain ⟨he1, _, he3⟩ := h
        subst he1; subst he3
        exact ⟨htr, h0, h1⟩
      · rename_i hc0 hsz
        cases hc : unpackCodec hle d (str.drop idx.toNat) ((str.length : Int) - idx) with
        | error e => rw [hc] at h; exact absurd h (by simp)
        | ok vk =>
          obtain ⟨vals, k⟩ := vk
          rw [hc] at h
          have hb := unpackCodec_bound hle d str idx vals k hwf hc h0 h1 hsz
          refine ih (idx + k) _ _ _ idx' res' tr' h hb.1 hb.2 ?_
          intro x hx
          rcases List.mem_append.mp hx with hx1 | hx2
          · exact htr x hx1
          · simp only [List.mem_singleton] at hx2
            subst hx2
            exact hb

theorem unpackDirs_inv (hle : Bool) (fuel : Nat) (str : List Nat) :
    ∀ (ds : List DirDesc), (∀ d ∈ ds, descWF d) →
    ∀ (idx : Int) (res : List PValue) (tr : List Int) (single : Bool)
      (idx' : Int) (res' : List PValue) (tr' : List Int),
      unpackDirs hle fuel str ds idx res tr single = some (.ok (idx', res', tr')) →
      0 ≤ idx → idx ≤ (str.length : Int) + 1 →
      (∀ x ∈ tr, 0 ≤ x ∧ x ≤ (str.length : Int) + 1) →
      (∀ x ∈ tr', 0 ≤ x ∧ x ≤ (str.length : Int) + 1) ∧ 0 ≤ idx' ∧
        idx' ≤ (str.length : Int) + 1 := by
  intro ds
  induction ds with
  | nil =>
    intro _ idx res tr single idx' res' tr' h h0 h1 htr
    simp only [unpackDirs, Option.some.injEq, Except.ok.injEq, Prod.mk.injEq] at h
    obtain ⟨he1, _, he3⟩ := h
    subst he1; subst he3
    exact ⟨htr, h0, h1⟩
  | cons d ds ih =>
    intro hwf idx res tr single idx' res' tr' h h0 h1 htr
    have hwfd := hwf d (by simp)
    have hwfds : ∀ d ∈ ds, descWF d := fun d hd => hwf d (by simp [hd])
    simp only [unpackDirs] at h
    split at h
    · exact ih hwfds idx res tr single idx' res' tr' h h0 h1 htr
    · split at h
      · -- nul directive
        cases hx : unpack_x ((str.length : Int) - idx) d.count with
        | error e => rw [hx] at h; exact absurd h (by simp)
        | ok k =>
          rw [hx] at h
          have hk : 0 ≤ idx + k ∧ idx + k ≤ (str.length : Int) + 1 := by
            simp only [unpack_x] at hx
            split at hx
            · rw [Except.ok.injEq] at hx
              omega
            · split at hx
              · exact absurd hx (by simp)
              · rw [Except.ok.injEq] at hx
                omega
          refine ih hwfds (idx + k) _ _ single idx' res' tr' h hk.1 hk.2 ?_
          intro x hx2
          rcases List.mem_append.mp hx2 with hx1 | hx1
          · exact htr x hx1
          · simp only [List.mem_singleton] at hx1
            subst hx1
            exact hk
      · split at h
        · -- count2 dispatch
          split at h
          · -- hex
            have hh := unpackHGo_le
            have hk : (unpack_h d.flags d.count (str.drop idx.toNat)
                ((str.length : Int) - idx)).2 ≤ (str.drop idx.toNat).length := by
              simp only [unpack_h]
              exact unpackHGo_le _ _ _ _
            simp only [List.length_drop] at hk
            refine ih hwfds _ _ _ single idx' res' tr' h (by omega) (by omega) ?_
            intro x hx2
            rcases List.mem_append.mp hx2 with hx1 | hx1
            · exact htr x hx1
            · simp only [List.mem_singleton] at hx1
              subst hx1
              constructor <;> omega
          · -- str
            have ha := unpack_a_bound d.flags d.count (str.drop idx.toNat)
              ((str.length : Int) - idx) hwfd.2 (by omega)
            refine ih hwfds _ _ _ single idx' res' tr' h (by omega) (by omega) ?_
            intro x hx2
            rcases List.mem_append.mp hx2 with hx1 | hx1
            · exact htr x hx1
            · simp only [List.mem_singleton] at hx1
              subst hx1
              constructor <;> omega
          · exact ih hwfds idx res tr single idx' res' tr' h h0 h1 htr
        · -- numeric loop
          split at h
          · exact absurd h (by simp)
          · exact absurd h (by simp)
          · rename_i idx2 res2 tr2 hl
            have hinv := unpackNumLoop_inv hle d str hwfd.1 fuel idx d.count res tr
              idx2 res2 tr2 hl h0 h1 htr
            split at h
            · simp only [Option.some.injEq, Except.ok.injEq, Prod.mk.injEq] at h
              obtain ⟨he1, _, he3⟩ := h
              subst he1; subst he3
              exact hinv
            · exact ih hwfds idx2 res2 tr2 single idx' res' tr' h hinv.2.1 hinv.2.2 hinv.1

/-- C7 counterexample: unpacking "" with "U" leaves the cursor at offset
1, strictly beyond the buffer length 0 — the empty-remainder UTF-8
sentinel reports one consumed byte past the end. -/
theorem claim7_counterexample :
    pack_unpack false 2 [] [85] false = some (.ok (1, [], [1])) ∧
    ¬ ((1 : Int) ≤ (([] : List Nat).length : Int)) :=
  ⟨rfl, by simp⟩

/-- C7 (amended): throughout every unpack call the cursor stays within
[0, length + 1] — it can pass the length by at most the one byte the
empty-remainder UTF-8 sentinel reports — and the trace of positions after
each codec call obeys the same bounds (each position is the previous one
plus exactly the count the codec reported). -/
theorem claim7_theorem (hle : Bool) (fuel : Nat) (str tmpl : List Nat) (single : Bool)
    (idx' : Int) (res' : List PValue) (tr' : List Int)
    (h : pack_unpack hle fuel str tmpl single = some (.ok (idx', res', tr'))) :
    (∀ x ∈ tr', 0 ≤ x ∧ x ≤ (str.length : Int) + 1) ∧ 0 ≤ idx' ∧
      idx' ≤ (str.length : Int) + 1 := by
  simp only [pack_unpack] at h
  cases hp : read_tmpl hle tmpl with
  | error e => rw [hp] at h; exact absurd h (by simp)
  | ok ds =>
    rw [hp] at h
    exact unpackDirs_inv hle fuel str ds (read_tmpl_wf hle tmpl ds hp) 0 [] [] single
      idx' res' tr' h (by omega) (by omega) (by simp)

/-- C7 witness: a concrete unpack run whose trace satisfies the bounds. -/
theorem claim7_witness :
    (∀ x ∈ [(1 : Int), 3], 0 ≤ x ∧ x ≤ (([1, 2, 3] : List Nat).length : Int) + 1) ∧
      (0 : Int) ≤ 3 ∧ (3 : Int) ≤ (([1, 2, 3] : List Nat).length : Int) + 1 :=
  claim7_theorem false 4 [1, 2, 3] [67, 83] false 3 [PValue.int 1, PValue.int 515] [1, 3] rfl
